import Mathlib

/-!
Verification of the AutoFFA mod (dikys/AutoFFA) against its natural-language
specification.

The development shallowly embeds the TypeScript sources under
src/ModData/Scripts (AutoFFAPlugin.ts, DiplomacyManager.ts, FfaParticipant.ts,
Team.ts) together with the variant files kept in the repository
(src/unnamed/part_002 supplies Team.removeVassal, which the canonical plugin
calls; src/unnamed/part_005 supplies the castle-damage variant of
findWinnerFor used for comparison).  JavaScript numbers are modelled as
rationals, JavaScript Map objects as total functions with default 0 (every
read in the sources is of the form map.get(k) || 0) or as insertion-ordered
lists of keys, and engine calls that only produce I/O (logging, chat
messages, decorators) are dropped, as they touch no state read back by the
embedded code.
-/

namespace AutoFFA

/-- Diplomatic status, from library/game-logic/horde-types as used by the
sources: a three-valued relation. -/
inductive DiplomacyStatus where
  | War : DiplomacyStatus
  | Neutral : DiplomacyStatus
  | Alliance : DiplomacyStatus
deriving DecidableEq, Repr

namespace Diplo

/-- State touched by DiplomacyManager (src/ModData/Scripts/DiplomacyManager.ts):
the static diplomacyCache, keyed by the order-independent pair key, plus the
external engine relation (settlement.Diplomacy), one directed slot per ordered
pair of settlement uids.  Settlement uids are modelled as naturals. -/
structure DState where
  cache : Nat × Nat → Option DiplomacyStatus
  engine : Nat → Nat → DiplomacyStatus

/-- DiplomacyManager.getCacheKey (DiplomacyManager.ts lines 18-21): the two
settlement uids sorted and joined.  The sorted pair is modelled as the
ordered pair (min, max). -/
def getCacheKey (u1 u2 : Nat) : Nat × Nat :=
  (min u1 u2, max u1 u2)

/-- DiplomacyManager.getDiplomacyStatus (DiplomacyManager.ts lines 30-39):
answer from the cache when present, otherwise ask the engine in the
(p1, p2) direction and cache the answer under the order-independent key.
Returns the status together with the possibly-extended cache state. -/
def getDiplomacyStatus (d : DState) (u1 u2 : Nat) : DiplomacyStatus × DState :=
  let k := getCacheKey u1 u2
  match d.cache k with
  | some s => (s, d)
  | none =>
      let s := d.engine u1 u2
      (s, { d with cache := fun k2 => if k2 = k then some s else d.cache k2 })

/-- DiplomacyManager.setDiplomacy (DiplomacyManager.ts lines 59-79): write the
cache under the order-independent key, then declare the new relation on the
engine in both directions (DeclareWar/DeclarePeace/DeclareAlliance is called
on p1 towards p2 and on p2 towards p1, whatever the status). -/
def setDiplomacy (d : DState) (u1 u2 : Nat) (s : DiplomacyStatus) : DState :=
  { cache := fun k2 => if k2 = getCacheKey u1 u2 then some s else d.cache k2,
    engine := fun a b =>
      if (a = u1 ∧ b = u2) ∨ (a = u2 ∧ b = u1) then s else d.engine a b }

/-- The engine relation is symmetric.  It holds initially (the scripts place
every pair into a definite mutual state during game setup, via
establishPeaceAmongAll or the setDiplomacy war loop) and, as proved below, is
preserved by every write the mod performs. -/
def EngineSymm (d : DState) : Prop :=
  ∀ a b, d.engine a b = d.engine b a

theorem getCacheKey_comm (u1 u2 : Nat) : getCacheKey u1 u2 = getCacheKey u2 u1 := by
  simp [getCacheKey, Nat.min_comm, Nat.max_comm]

end Diplo

end AutoFFA

namespace AutoFFA.Diplo

/-- C2.  Diplomatic symmetry: provided the engine relation is symmetric (as
established at setup and preserved by every write), the status reported by
getDiplomacyStatus is independent of the argument order; setDiplomacy writes
the order-independent cache key and both engine directions, so an immediately
following getDiplomacyStatus returns the new status with either argument
order; and both operations preserve engine symmetry, so the property holds in
every reachable state. -/
theorem diplomacy_symmetric (d : DState) (u1 u2 : Nat) (s : DiplomacyStatus)
    (h : EngineSymm d) :
    (getDiplomacyStatus d u1 u2).1 = (getDiplomacyStatus d u2 u1).1 ∧
    (getDiplomacyStatus (setDiplomacy d u1 u2 s) u1 u2).1 = s ∧
    (getDiplomacyStatus (setDiplomacy d u1 u2 s) u2 u1).1 = s ∧
    EngineSymm (setDiplomacy d u1 u2 s) ∧
    EngineSymm (getDiplomacyStatus d u1 u2).2 := by
  refine ⟨?_, ?_, ?_, ?_, ?_⟩
  · unfold getDiplomacyStatus
    rw [getCacheKey_comm u2 u1]
    cases hc : d.cache (getCacheKey u1 u2) with
    | some st => simp [hc]
    | none => simp [hc, h u1 u2]
  · unfold getDiplomacyStatus setDiplomacy
    simp
  · unfold getDiplomacyStatus setDiplomacy
    simp [getCacheKey_comm u2 u1]
  · intro a b
    unfold setDiplomacy
    by_cases hab : (a = u1 ∧ b = u2) ∨ (a = u2 ∧ b = u1)
    · have hba : (b = u1 ∧ a = u2) ∨ (b = u2 ∧ a = u1) := by tauto
      simp [hab, hba]
    · have hba : ¬ ((b = u1 ∧ a = u2) ∨ (b = u2 ∧ a = u1)) := by tauto
      simp [hab, hba, h a b]
  · unfold getDiplomacyStatus
    cases hc : d.cache (getCacheKey u1 u2) with
    | some st => simpa [hc] using h
    | none => simpa [hc] using h

/-- Witness for C2 at a concrete state: the all-War engine with an empty
cache is symmetric, and the theorem applies to it. -/
theorem diplomacy_symmetric_witness :
    (getDiplomacyStatus { cache := fun _ => none, engine := fun _ _ => .War } 3 5).1
      = (getDiplomacyStatus { cache := fun _ => none, engine := fun _ _ => .War } 5 3).1 ∧
    (getDiplomacyStatus
        (setDiplomacy { cache := fun _ => none, engine := fun _ _ => .War } 3 5 .Neutral) 5 3).1
      = .Neutral := by
  have h := diplomacy_symmetric
    { cache := fun _ => none, engine := fun _ _ => .War } 3 5 .Neutral
    (fun _ _ => rfl)
  exact ⟨h.1, h.2.2.1⟩

end AutoFFA.Diplo

namespace AutoFFA.TeamModel

/-- Participant record as read and written by the Team methods
(src/ModData/Scripts/FfaParticipant.ts fields): back-reference to the
suzerain is kept as an id, the damage maps as total functions defaulting
to 0 (all reads in the sources are map.get(k) || 0). -/
structure FfaParticipant where
  id : Nat
  powerPoints : ℚ
  suzerain : Option Nat
  damageDealtTo : Nat → ℚ
  castleDamageDealtTo : Nat → ℚ

/-- Convenience builder for concrete examples. -/
def mkP (i : Nat) (pp : ℚ) : FfaParticipant :=
  { id := i, powerPoints := pp, suzerain := none,
    damageDealtTo := fun _ => 0, castleDamageDealtTo := fun _ => 0 }

/-- Team (src/ModData/Scripts/Team.ts): one suzerain plus the vassal map,
modelled as the insertion-ordered list of its values. -/
structure Team where
  id : Nat
  suzerain : FfaParticipant
  vassals : List FfaParticipant
  peaceUntilTick : ℚ

/-- Team.getMembers (Team.ts lines 56-58): the suzerain followed by the
vassals. -/
def getMembers (t : Team) : List FfaParticipant :=
  t.suzerain :: t.vassals

/-- Total power points held by a team, used to state spoils conservation. -/
def sumPowerPoints (t : Team) : ℚ :=
  ((getMembers t).map (fun m => m.powerPoints)).sum

/-- Team.shareSpoils (Team.ts lines 174-190): remove
takenPercentage * powerPoints from the defeated participant and distribute
it over the members, each share weighted by max(1, damageDealtTo[defeated])
over the team total of those weights; afterwards each member's
damageDealtTo entry for the defeated participant is set to 0 (the
castle-specific map is not touched by this method).  Returns the updated
team together with the updated defeated participant. -/
def shareSpoils (t : Team) (defeated : FfaParticipant) (takenPercentage : ℚ) :
    Team × FfaParticipant :=
  let distributedPower := defeated.powerPoints * takenPercentage
  let defeated1 := { defeated with powerPoints := defeated.powerPoints - distributedPower }
  let members := getMembers t
  let totalDamage := (members.map (fun m => max 1 (m.damageDealtTo defeated.id))).sum
  let upd := fun (m : FfaParticipant) =>
    { m with
      powerPoints := m.powerPoints + distributedPower * max 1 (m.damageDealtTo defeated.id) / totalDamage,
      damageDealtTo := fun k => if k = defeated.id then 0 else m.damageDealtTo k }
  ({ t with suzerain := upd t.suzerain, vassals := t.vassals.map upd }, defeated1)

/-- Team.changeSuzerain (Team.ts lines 216-236): the new suzerain leaves the
vassal map and loses its suzerain reference, the old suzerain is appended to
the vassal map, and every remaining vassal's suzerain reference is re-pointed
at the new suzerain. -/
def changeSuzerain (t : Team) (newSuzerain : FfaParticipant) : Team :=
  let oldSuzerain := t.suzerain
  let rest := t.vassals.filter (fun v => v.id ≠ newSuzerain.id)
  { t with
    suzerain := { newSuzerain with suzerain := none },
    vassals := (rest.map (fun v => { v with suzerain := some newSuzerain.id })) ++
      [{ oldSuzerain with suzerain := some newSuzerain.id }] }

/-- The reduce step of Team.promoteNewSuzerainIfNeeded (Team.ts lines
114-116): keep the accumulator only when its powerPoints are strictly
greater, so a later member wins ties. -/
def maxStep (prev current : FfaParticipant) : FfaParticipant :=
  if prev.powerPoints > current.powerPoints then prev else current

/-- Team.promoteNewSuzerainIfNeeded (Team.ts lines 113-123): reduce the
member list to its most powerful member (ties resolved toward the later
member) and change the suzerain whenever that member's id differs from the
current suzerain's id.  No margin is involved. -/
def promoteNewSuzerainIfNeeded (t : Team) : Team :=
  let mostPowerfulMember := t.vassals.foldl maxStep t.suzerain
  if mostPowerfulMember.id ≠ t.suzerain.id then changeSuzerain t mostPowerfulMember else t

theorem one_le_weight (d : Nat) (m : FfaParticipant) :
    (1:ℚ) ≤ max 1 (m.damageDealtTo d) := le_max_left 1 _

theorem totalDamage_pos (t : Team) (d : Nat) :
    0 < ((getMembers t).map (fun m => max 1 (m.damageDealtTo d))).sum := by
  have h1 : (1:ℚ) ≤ ((getMembers t).map (fun m => max 1 (m.damageDealtTo d))).sum := by
    simp only [getMembers, List.map_cons, List.sum_cons]
    have h0 : (0:ℚ) ≤ (t.vassals.map (fun m => max 1 (m.damageDealtTo d))).sum := by
      apply List.sum_nonneg
      intro x hx
      rcases List.mem_map.mp hx with ⟨m, _, rfl⟩
      exact le_trans zero_le_one (one_le_weight d m)
    calc (1:ℚ) ≤ max 1 (t.suzerain.damageDealtTo d) := one_le_weight d t.suzerain
    _ ≤ _ := le_add_of_nonneg_right h0
  linarith


/-- C3.  Spoils conservation: shareSpoils removes exactly
takenPercentage * powerPoints from the defeated participant, and the power
points gained by the team members sum to exactly the removed amount (each
member's share being its damage credit floored at 1 over the team total of
those floored credits). -/
theorem shareSpoils_conserves (t : Team) (d : FfaParticipant) (pct : ℚ) :
    (shareSpoils t d pct).2.powerPoints = d.powerPoints - pct * d.powerPoints ∧
    sumPowerPoints (shareSpoils t d pct).1 = sumPowerPoints t + pct * d.powerPoints := by
  constructor
  · simp [shareSpoils, mul_comm]
  · have hT := totalDamage_pos t d.id
    set T := ((getMembers t).map (fun m => max 1 (m.damageDealtTo d.id))).sum with hTdef
    have hTne : T ≠ 0 := ne_of_gt hT
    have hmem : getMembers (shareSpoils t d pct).1
        = (getMembers t).map (fun m : FfaParticipant =>
            { m with
              powerPoints := m.powerPoints +
                d.powerPoints * pct * max 1 (m.damageDealtTo d.id) / T,
              damageDealtTo := fun k => if k = d.id then 0 else m.damageDealtTo k }) := by
      simp [shareSpoils, getMembers, hTdef]
    rw [sumPowerPoints, hmem, List.map_map]
    have hfun : ((fun m : FfaParticipant => m.powerPoints) ∘ fun m : FfaParticipant =>
        { m with
          powerPoints := m.powerPoints +
            d.powerPoints * pct * max 1 (m.damageDealtTo d.id) / T,
          damageDealtTo := fun k => if k = d.id then 0 else m.damageDealtTo k })
        = fun m => m.powerPoints + (d.powerPoints * pct / T) * max 1 (m.damageDealtTo d.id) := by
      funext m
      simp
      ring
    rw [hfun, List.sum_map_add, List.sum_map_mul_left]
    rw [← hTdef, div_mul_cancel₀ _ hTne]
    rw [sumPowerPoints]
    ring

/-- C7 counterexample: after shareSpoils, the castle-specific damage
accumulator entry for the defeated participant is NOT reset: a suzerain with
castle-damage credit 7 against the defeated participant keeps all 7 after
the spoils are distributed (the claim would require it to be 0). -/
theorem shareSpoils_castle_not_reset :
    ((shareSpoils
        { id := 0,
          suzerain := { mkP 0 10 with castleDamageDealtTo := fun k => if k = 5 then 7 else 0 },
          vassals := [], peaceUntilTick := 0 }
        (mkP 5 50) (1/10)).1.suzerain.castleDamageDealtTo 5 = 7) ∧ ((7:ℚ) ≠ 0) := by
  constructor
  · rfl
  · norm_num

/-- C7 amended: after shareSpoils(d, f) every member's general damage
accumulator entry for d is zero, but the castle-specific accumulators are
left exactly as they were. -/
theorem shareSpoils_resets_only_general (t : Team) (d : FfaParticipant) (pct : ℚ) :
    ((getMembers (shareSpoils t d pct).1).map (fun m => m.damageDealtTo d.id))
      = List.replicate (getMembers t).length 0 ∧
    ((getMembers (shareSpoils t d pct).1).map (fun m => m.castleDamageDealtTo))
      = (getMembers t).map (fun m => m.castleDamageDealtTo) := by
  constructor
  · simp [shareSpoils, getMembers, List.map_map, Function.comp_def, List.replicate_succ]
  · simp [shareSpoils, getMembers, List.map_map, Function.comp_def]

theorem foldl_maxStep_eq_acc (l : List FfaParticipant) (acc : FfaParticipant)
    (h : ∀ c ∈ l, c.powerPoints < acc.powerPoints) : l.foldl maxStep acc = acc := by
  induction l with
  | nil => rfl
  | cons c rest ih =>
      have hc : acc.powerPoints > c.powerPoints := h c (List.mem_cons_self c rest)
      simp only [List.foldl_cons, maxStep, if_pos hc]
      exact ih (fun x hx => h x (List.mem_cons_of_mem c hx))

theorem foldl_maxStep_mem (l : List FfaParticipant) (acc : FfaParticipant) :
    l.foldl maxStep acc = acc ∨ l.foldl maxStep acc ∈ l := by
  induction l generalizing acc with
  | nil => left; rfl
  | cons c rest ih =>
      simp only [List.foldl_cons]
      rcases ih (maxStep acc c) with h | h
      · rw [h]
        unfold maxStep
        by_cases hpc : acc.powerPoints > c.powerPoints
        · left; rw [if_pos hpc]
        · right; rw [if_neg hpc]; exact List.mem_cons_self c rest
      · right; exact List.mem_cons_of_mem c h

theorem foldl_maxStep_mem_of_ge (l : List FfaParticipant) (acc : FfaParticipant)
    (h : ∃ c ∈ l, acc.powerPoints ≤ c.powerPoints) : l.foldl maxStep acc ∈ l := by
  induction l generalizing acc with
  | nil => rcases h with ⟨c, hc, _⟩; exact absurd hc (List.not_mem_nil c)
  | cons c rest ih =>
      simp only [List.foldl_cons]
      by_cases hpc : acc.powerPoints > c.powerPoints
      · have hstep : maxStep acc c = acc := by rw [maxStep, if_pos hpc]
        rw [hstep]
        rcases h with ⟨c0, hc0, hle⟩
        rcases List.mem_cons.mp hc0 with rfl | hmem
        · exact absurd hle (not_le.mpr hpc)
        · exact List.mem_cons_of_mem c (ih acc ⟨c0, hmem, hle⟩)
      · have hstep : maxStep acc c = c := by rw [maxStep, if_neg hpc]
        rw [hstep]
        rcases foldl_maxStep_mem rest c with heq | hmem
        · rw [heq]; exact List.mem_cons_self c rest
        · exact List.mem_cons_of_mem c hmem

/-- C6 counterexample: with a suzerain and a vassal holding EQUAL power
points (so the strongest member exceeds the suzerain by no margin at all),
promoteNewSuzerainIfNeeded promotes the vassal; calling it again with no
intervening power change promotes right back, so the operation is not
idempotent and fires without any margin. -/
theorem promote_fires_on_tie_and_flips :
    (promoteNewSuzerainIfNeeded
        { id := 0, suzerain := mkP 0 5,
          vassals := [{ mkP 1 5 with suzerain := some 0 }],
          peaceUntilTick := 0 }).suzerain.id = 1 ∧
    (promoteNewSuzerainIfNeeded (promoteNewSuzerainIfNeeded
        { id := 0, suzerain := mkP 0 5,
          vassals := [{ mkP 1 5 with suzerain := some 0 }],
          peaceUntilTick := 0 })).suzerain.id = 0 := by
  constructor <;> rfl

/-- C6 amended: promoteNewSuzerainIfNeeded applies no margin: it leaves the
team unchanged exactly when every vassal's power points are strictly below
the suzerain's; whenever some vassal ties or exceeds the suzerain, the
suzerain changes.  Idempotence therefore holds only on the unchanged side. -/
theorem promote_no_margin (t : Team)
    (hid : t.suzerain.id ∉ t.vassals.map FfaParticipant.id) :
    (promoteNewSuzerainIfNeeded t = t ↔
      ∀ v ∈ t.vassals, v.powerPoints < t.suzerain.powerPoints) := by
  constructor
  · intro heq
    by_contra hcon
    push_neg at hcon
    rcases hcon with ⟨v, hv, hge⟩
    have hmem : t.vassals.foldl maxStep t.suzerain ∈ t.vassals :=
      foldl_maxStep_mem_of_ge t.vassals t.suzerain ⟨v, hv, hge⟩
    have hne : (t.vassals.foldl maxStep t.suzerain).id ≠ t.suzerain.id := by
      intro hcontra
      exact hid (hcontra ▸ List.mem_map_of_mem FfaParticipant.id hmem)
    have hres : promoteNewSuzerainIfNeeded t = changeSuzerain t (t.vassals.foldl maxStep t.suzerain) := by
      rw [promoteNewSuzerainIfNeeded, if_pos hne]
    have : (promoteNewSuzerainIfNeeded t).suzerain.id = (t.vassals.foldl maxStep t.suzerain).id := by
      rw [hres]; rfl
    rw [heq] at this
    exact hne this.symm
  · intro hlt
    have hmp : t.vassals.foldl maxStep t.suzerain = t.suzerain :=
      foldl_maxStep_eq_acc t.vassals t.suzerain hlt
    rw [promoteNewSuzerainIfNeeded]
    simp [hmp]

/-- Witness for C6 amended at a concrete team: suzerain stronger than its
only vassal, so the call is a no-op. -/
theorem promote_no_margin_witness :
    (promoteNewSuzerainIfNeeded
        { id := 0, suzerain := mkP 0 9,
          vassals := [{ mkP 1 5 with suzerain := some 0 }],
          peaceUntilTick := 0 }
      = { id := 0, suzerain := mkP 0 9,
          vassals := [{ mkP 1 5 with suzerain := some 0 }],
          peaceUntilTick := 0 }) := by
  exact (promote_no_margin _ (by decide)).mpr (by
    intro v hv
    rcases List.mem_singleton.mp hv with rfl
    norm_num [mkP])


end AutoFFA.TeamModel

namespace AutoFFA.Participant

/-- Numeric tuning constants consumed by FfaParticipant (the AutoFFASettings
configuration object, out of scope per the specification, supplied at
construction). -/
structure AutoFFASettings where
  vassalResourceLimit : ℚ
  vassalPopulationLimit : ℚ
  enablePowerPointsExchange : Bool
  powerPointsExchangeRate : ℚ
  powerPointsRewardPercentage : ℚ

/-- The participant state read and written by FfaParticipant.payTribute and
FfaParticipant.givePowerPointReward (src/ModData/Scripts/FfaParticipant.ts):
the settlement's resource holdings (Gold, Metal, Lumber and FreePeople),
the power points, the battle-summary counters with their previous-cycle
copies, the reward timer, and the settlement's Census.TicksToNextTaxAndSalary
(an external read, carried as a field).  hasSuzerain models the
isVassal() / this.suzerain guard. -/
structure FfaParticipantEco where
  gold : ℚ
  metal : ℚ
  lumber : ℚ
  freePeople : ℚ
  powerPoints : ℚ
  hasSuzerain : Bool
  totalPointsFromTribute : ℚ
  totalPointsFromGenerosity : ℚ
  totalPointsFromAttacks : ℚ
  totalPointsFromCaptures : ℚ
  totalPointsLostFromDefeat : ℚ
  prevTotalPointsFromTribute : ℚ
  prevTotalPointsFromGenerosity : ℚ
  prevTotalPointsFromAttacks : ℚ
  prevTotalPointsFromCaptures : ℚ
  prevTotalPointsLostFromDefeat : ℚ
  nextRewardTime : ℚ
  ticksToNextTaxAndSalary : ℚ

/-- All-zero participant, builder for concrete instances. -/
def zeroEco : FfaParticipantEco :=
  { gold := 0, metal := 0, lumber := 0, freePeople := 0, powerPoints := 0,
    hasSuzerain := false,
    totalPointsFromTribute := 0, totalPointsFromGenerosity := 0,
    totalPointsFromAttacks := 0, totalPointsFromCaptures := 0,
    totalPointsLostFromDefeat := 0,
    prevTotalPointsFromTribute := 0, prevTotalPointsFromGenerosity := 0,
    prevTotalPointsFromAttacks := 0, prevTotalPointsFromCaptures := 0,
    prevTotalPointsLostFromDefeat := 0,
    nextRewardTime := 0, ticksToNextTaxAndSalary := 0 }

/-- FfaParticipant.payTribute (FfaParticipant.ts lines 121-180), acting on
the vassal v (this) and its suzerain s.  Limits are
floor(vassalResourceLimit + 0.1 * powerPoints) and
floor(vassalPopulationLimit + 0.002 * powerPoints); each tribute component
is max(0, held - limit); when any is positive all four are taken from the
vassal, the three resource components are given to the suzerain, and with
the exchange feature enabled, points transfer from suzerain to vassal only
when the power difference strictly exceeds twice the would-be transfer.
Returns (updated vassal, updated suzerain, whether tribute was paid). -/
def payTribute (st : AutoFFASettings) (v s : FfaParticipantEco) :
    FfaParticipantEco × FfaParticipantEco × Bool :=
  if v.hasSuzerain then
    let resourceLimit : ℚ := (⌊st.vassalResourceLimit + (1/10) * v.powerPoints⌋ : ℤ)
    let populationLimit : ℚ := (⌊st.vassalPopulationLimit + (1/500) * v.powerPoints⌋ : ℤ)
    let tG := max 0 (v.gold - resourceLimit)
    let tM := max 0 (v.metal - resourceLimit)
    let tL := max 0 (v.lumber - resourceLimit)
    let tP := max 0 (v.freePeople - populationLimit)
    if tG > 0 ∨ tM > 0 ∨ tL > 0 ∨ tP > 0 then
      let v1 := { v with gold := v.gold - tG, metal := v.metal - tM,
                         lumber := v.lumber - tL, freePeople := v.freePeople - tP }
      if tG > 0 ∨ tM > 0 ∨ tL > 0 then
        let s1 := { s with gold := s.gold + tG, metal := s.metal + tM, lumber := s.lumber + tL }
        if st.enablePowerPointsExchange then
          let totalResourceValue := tG + tM + tL
          if totalResourceValue > 0 then
            let pointsToTransfer := totalResourceValue * st.powerPointsExchangeRate
            let powerDifference := s1.powerPoints - v1.powerPoints
            if powerDifference > pointsToTransfer * 2 then
              let actualPointsTransferred := min s1.powerPoints pointsToTransfer
              if actualPointsTransferred > 0 then
                ({ v1 with powerPoints := v1.powerPoints + actualPointsTransferred,
                           totalPointsFromTribute := v1.totalPointsFromTribute + actualPointsTransferred },
                 { s1 with powerPoints := s1.powerPoints - actualPointsTransferred,
                           totalPointsFromTribute := s1.totalPointsFromTribute - actualPointsTransferred },
                 true)
              else (v1, s1, true)
            else (v1, s1, true)
          else (v1, s1, true)
        else (v1, s1, true)
      else (v1, s, true)
    else (v, s, false)
  else (v, s, false)

/-- FfaParticipant.givePowerPointReward (FfaParticipant.ts lines 229-306):
the battle-summary previous counters are refreshed and nextRewardTime is
advanced by the settlement's TicksToNextTaxAndSalary BEFORE the threshold
check; below 10 power points nothing is deposited and false is returned;
otherwise floor(rewardPercentage * powerPoints) of each resource and
floor(0.02 * rewardPercentage * powerPoints) people are deposited and true
is returned.  Power points themselves are never changed. -/
def givePowerPointReward (st : AutoFFASettings) (p : FfaParticipantEco) :
    FfaParticipantEco × Bool :=
  let p1 := { p with
    prevTotalPointsFromTribute := p.totalPointsFromTribute,
    prevTotalPointsFromGenerosity := p.totalPointsFromGenerosity,
    prevTotalPointsFromAttacks := p.totalPointsFromAttacks,
    prevTotalPointsLostFromDefeat := p.totalPointsLostFromDefeat,
    prevTotalPointsFromCaptures := p.totalPointsFromCaptures,
    nextRewardTime := p.nextRewardTime + p.ticksToNextTaxAndSalary }
  if p1.powerPoints < 10 then (p1, false)
  else
    let resourceReward : ℚ := (⌊st.powerPointsRewardPercentage * p1.powerPoints⌋ : ℤ)
    let peopleReward : ℚ := (⌊(1/50) * st.powerPointsRewardPercentage * p1.powerPoints⌋ : ℤ)
    ({ p1 with gold := p1.gold + resourceReward, metal := p1.metal + resourceReward,
               lumber := p1.lumber + resourceReward, freePeople := p1.freePeople + peopleReward },
     true)

theorem sub_max_zero_eq_min (a b : ℚ) : a - max 0 (a - b) = min a b := by
  rcases le_total a b with h | h
  · rw [max_eq_left (by linarith), min_eq_left h]; ring
  · rw [max_eq_right (by linarith), min_eq_right h]; ring



theorem payTribute_resources_shape (st : AutoFFASettings) (v s : FfaParticipantEco)
    (hv : v.hasSuzerain = true) :
    (payTribute st v s).1.gold
      = v.gold - max 0 (v.gold - ((⌊st.vassalResourceLimit + (1/10) * v.powerPoints⌋ : ℤ) : ℚ)) ∧
    (payTribute st v s).1.metal
      = v.metal - max 0 (v.metal - ((⌊st.vassalResourceLimit + (1/10) * v.powerPoints⌋ : ℤ) : ℚ)) ∧
    (payTribute st v s).1.lumber
      = v.lumber - max 0 (v.lumber - ((⌊st.vassalResourceLimit + (1/10) * v.powerPoints⌋ : ℤ) : ℚ)) ∧
    (payTribute st v s).1.freePeople
      = v.freePeople - max 0 (v.freePeople - ((⌊st.vassalPopulationLimit + (1/500) * v.powerPoints⌋ : ℤ) : ℚ)) := by
  refine ⟨?_, ?_, ?_, ?_⟩ <;>
  · simp only [payTribute, hv, if_true]
    split_ifs with h1 h2 h3 h4 h5 h6
    · rfl
    · rfl
    · rfl
    · rfl
    · rfl
    · rfl
    · push_neg at h1
      first
        | (have h0 : max 0 (v.gold - ((⌊st.vassalResourceLimit + (1/10) * v.powerPoints⌋ : ℤ) : ℚ)) = 0 :=
            le_antisymm h1.1 (le_max_left _ _)
           rw [h0]; ring)
        | (have h0 : max 0 (v.metal - ((⌊st.vassalResourceLimit + (1/10) * v.powerPoints⌋ : ℤ) : ℚ)) = 0 :=
            le_antisymm h1.2.1 (le_max_left _ _)
           rw [h0]; ring)
        | (have h0 : max 0 (v.lumber - ((⌊st.vassalResourceLimit + (1/10) * v.powerPoints⌋ : ℤ) : ℚ)) = 0 :=
            le_antisymm h1.2.2.1 (le_max_left _ _)
           rw [h0]; ring)
        | (have h0 : max 0 (v.freePeople - ((⌊st.vassalPopulationLimit + (1/500) * v.powerPoints⌋ : ℤ) : ℚ)) = 0 :=
            le_antisymm h1.2.2.2 (le_max_left _ _)
           rw [h0]; ring)

/-- C9.  Tribute non-negativity and limit preservation: each tribute
component is max(0, held - limit), hence never negative, and after
payTribute each of the vassal's holdings equals min(pre-collection holding,
its computed limit) - collection never leaves a holding below the limit. -/
theorem payTribute_respects_limits (st : AutoFFASettings) (v s : FfaParticipantEco)
    (hv : v.hasSuzerain = true) :
    0 ≤ max 0 (v.gold - ((⌊st.vassalResourceLimit + (1/10) * v.powerPoints⌋ : ℤ) : ℚ)) ∧
    0 ≤ max 0 (v.freePeople - ((⌊st.vassalPopulationLimit + (1/500) * v.powerPoints⌋ : ℤ) : ℚ)) ∧
    (payTribute st v s).1.gold
      = min v.gold ((⌊st.vassalResourceLimit + (1/10) * v.powerPoints⌋ : ℤ) : ℚ) ∧
    (payTribute st v s).1.metal
      = min v.metal ((⌊st.vassalResourceLimit + (1/10) * v.powerPoints⌋ : ℤ) : ℚ) ∧
    (payTribute st v s).1.lumber
      = min v.lumber ((⌊st.vassalResourceLimit + (1/10) * v.powerPoints⌋ : ℤ) : ℚ) ∧
    (payTribute st v s).1.freePeople
      = min v.freePeople ((⌊st.vassalPopulationLimit + (1/500) * v.powerPoints⌋ : ℤ) : ℚ) := by
  obtain ⟨hg, hm, hl, hp⟩ := payTribute_resources_shape st v s hv
  exact ⟨le_max_left 0 _, le_max_left 0 _,
    by rw [hg, sub_max_zero_eq_min],
    by rw [hm, sub_max_zero_eq_min],
    by rw [hl, sub_max_zero_eq_min],
    by rw [hp, sub_max_zero_eq_min]⟩

/-- Witness for C9 at a concrete vassal: limit floor(100 + 0.1 * 50) = 105,
gold 117 is clipped to 105, free people 7 stay below their limit. -/
theorem payTribute_respects_limits_witness :
    (payTribute
        { vassalResourceLimit := 100, vassalPopulationLimit := 50,
          enablePowerPointsExchange := false, powerPointsExchangeRate := 0,
          powerPointsRewardPercentage := 0 }
        { zeroEco with hasSuzerain := true, gold := 117, freePeople := 7, powerPoints := 50 }
        zeroEco).1.gold = 105 := by
  have h := payTribute_respects_limits
    { vassalResourceLimit := 100, vassalPopulationLimit := 50,
      enablePowerPointsExchange := false, powerPointsExchangeRate := 0,
      powerPointsRewardPercentage := 0 }
    { zeroEco with hasSuzerain := true, gold := 117, freePeople := 7, powerPoints := 50 }
    zeroEco rfl
  rw [h.2.2.1]
  norm_num


/-- C5 counterexample: suzerain power 100, vassal power 75, tribute worth 10
resource points at exchange rate 1.  The difference 25 exceeds twice the
transfer (20), so the code transfers 10 points: vassal 75 to 85, suzerain
100 to 90.  After the transfer the suzerain exceeds the vassal by only 5,
which is LESS than the 10 transferred points, refuting the claim that the
transfer happens only when the post-transfer lead is at least the
transferred amount. -/
theorem payTribute_exchange_guard_counterexample :
    ((payTribute
        { vassalResourceLimit := 100, vassalPopulationLimit := 1000,
          enablePowerPointsExchange := true, powerPointsExchangeRate := 1,
          powerPointsRewardPercentage := 0 }
        { zeroEco with hasSuzerain := true, gold := 117, powerPoints := 75 }
        { zeroEco with powerPoints := 100 }).1.powerPoints = 85) ∧
    ((payTribute
        { vassalResourceLimit := 100, vassalPopulationLimit := 1000,
          enablePowerPointsExchange := true, powerPointsExchangeRate := 1,
          powerPointsRewardPercentage := 0 }
        { zeroEco with hasSuzerain := true, gold := 117, powerPoints := 75 }
        { zeroEco with powerPoints := 100 }).2.1.powerPoints = 90) ∧
    ((90 : ℚ) - 85 < 85 - 75) := by
  refine ⟨?_, ?_, by norm_num⟩ <;>
  · norm_num [payTribute, zeroEco]



theorem exchange_bounds (S V T : ℚ) (hgt : S - V > T * 2) :
    S - V > 2 * ((V + S ⊓ T) - V) ∧ V + S ⊓ T < S - S ⊓ T := by
  have hm := min_le_right S T
  constructor <;> linarith

/-- C5 amended: whenever payTribute transfers power points, the vassal gains
exactly what the suzerain loses, and the transfer happens only when the
pre-transfer power difference strictly exceeds TWICE the transferred amount
- equivalently, the suzerain is still strictly stronger than the vassal
after the transfer (but not necessarily by the transferred amount). -/
theorem payTribute_exchange_guard (st : AutoFFASettings) (v s : FfaParticipantEco) :
    s.powerPoints - (payTribute st v s).2.1.powerPoints
      = (payTribute st v s).1.powerPoints - v.powerPoints ∧
    (v.powerPoints < (payTribute st v s).1.powerPoints →
      s.powerPoints - v.powerPoints
          > 2 * ((payTribute st v s).1.powerPoints - v.powerPoints) ∧
      (payTribute st v s).1.powerPoints < (payTribute st v s).2.1.powerPoints) := by
  simp only [payTribute]
  split_ifs with h0 h1 h2 h3 h4 h5 h6
  · refine ⟨by simp, fun _ => ?_⟩
    have h := exchange_bounds s.powerPoints v.powerPoints _ h5
    simpa using h
  all_goals exact ⟨by simp, fun hlt => absurd hlt (by simp)⟩

/-- Witness for C5 at a concrete transfer: the inner implication fires with
vassal 75 and suzerain 100 exchanging 10 points, and the suzerain stays
strictly ahead. -/
theorem payTribute_exchange_guard_witness :
    ((payTribute
        { vassalResourceLimit := 100, vassalPopulationLimit := 1000,
          enablePowerPointsExchange := true, powerPointsExchangeRate := 1,
          powerPointsRewardPercentage := 0 }
        { zeroEco with hasSuzerain := true, gold := 117, powerPoints := 75 }
        { zeroEco with powerPoints := 100 }).1.powerPoints
      < (payTribute
        { vassalResourceLimit := 100, vassalPopulationLimit := 1000,
          enablePowerPointsExchange := true, powerPointsExchangeRate := 1,
          powerPointsRewardPercentage := 0 }
        { zeroEco with hasSuzerain := true, gold := 117, powerPoints := 75 }
        { zeroEco with powerPoints := 100 }).2.1.powerPoints) := by
  have h := (payTribute_exchange_guard
    { vassalResourceLimit := 100, vassalPopulationLimit := 1000,
      enablePowerPointsExchange := true, powerPointsExchangeRate := 1,
      powerPointsRewardPercentage := 0 }
    { zeroEco with hasSuzerain := true, gold := 117, powerPoints := 75 }
    { zeroEco with powerPoints := 100 }).2
  refine (h ?_).2
  norm_num [payTribute, zeroEco]

/-- C8 counterexample: a participant with 5 power points (below the
threshold of 10) is NOT left unchanged by givePowerPointReward: although no
resources are deposited and no reward is reported, nextRewardTime still
advances by the tax period (from 0 to 100 here), so the call is not a
no-op. -/
theorem givePowerPointReward_below_threshold_not_noop :
    ((givePowerPointReward
        { vassalResourceLimit := 0, vassalPopulationLimit := 0,
          enablePowerPointsExchange := false, powerPointsExchangeRate := 0,
          powerPointsRewardPercentage := (1/10) }
        { zeroEco with powerPoints := 5, ticksToNextTaxAndSalary := 100 }).1.nextRewardTime
      = 100) ∧
    ((givePowerPointReward
        { vassalResourceLimit := 0, vassalPopulationLimit := 0,
          enablePowerPointsExchange := false, powerPointsExchangeRate := 0,
          powerPointsRewardPercentage := (1/10) }
        { zeroEco with powerPoints := 5, ticksToNextTaxAndSalary := 100 }).2 = false) ∧
    ((100 : ℚ) ≠ 0) := by
  refine ⟨?_, ?_, by norm_num⟩ <;> norm_num [givePowerPointReward, zeroEco]

/-- C8 amended: below 10 power points givePowerPointReward deposits no
resources and reports false, but it is not a no-op: the battle-summary
previous counters are refreshed and nextRewardTime advances by the
settlement's tax period; at 10 or more it deposits
floor(rewardPercentage * powerPoints) of each resource plus
floor(0.02 * rewardPercentage * powerPoints) people, reports true, and in
both regimes the power points themselves are unchanged. -/
theorem givePowerPointReward_spec (st : AutoFFASettings) (p : FfaParticipantEco) :
    (givePowerPointReward st p).1.powerPoints = p.powerPoints ∧
    (givePowerPointReward st p).1.nextRewardTime
      = p.nextRewardTime + p.ticksToNextTaxAndSalary ∧
    (givePowerPointReward st p).1.prevTotalPointsFromAttacks = p.totalPointsFromAttacks ∧
    (p.powerPoints < 10 →
      (givePowerPointReward st p).2 = false ∧
      (givePowerPointReward st p).1.gold = p.gold ∧
      (givePowerPointReward st p).1.metal = p.metal ∧
      (givePowerPointReward st p).1.lumber = p.lumber ∧
      (givePowerPointReward st p).1.freePeople = p.freePeople) ∧
    (10 ≤ p.powerPoints →
      (givePowerPointReward st p).2 = true ∧
      (givePowerPointReward st p).1.gold
        = p.gold + ((⌊st.powerPointsRewardPercentage * p.powerPoints⌋ : ℤ) : ℚ) ∧
      (givePowerPointReward st p).1.metal
        = p.metal + ((⌊st.powerPointsRewardPercentage * p.powerPoints⌋ : ℤ) : ℚ) ∧
      (givePowerPointReward st p).1.lumber
        = p.lumber + ((⌊st.powerPointsRewardPercentage * p.powerPoints⌋ : ℤ) : ℚ) ∧
      (givePowerPointReward st p).1.freePeople
        = p.freePeople + ((⌊(1/50) * st.powerPointsRewardPercentage * p.powerPoints⌋ : ℤ) : ℚ)) := by
  simp only [givePowerPointReward]
  split_ifs with h
  · refine ⟨by simp, by simp, by simp, fun _ => ⟨rfl, by simp, by simp, by simp, by simp⟩,
      fun hge => absurd h (not_lt.mpr hge)⟩
  · refine ⟨by simp, by simp, by simp, fun hlt => absurd hlt h, fun _ => ⟨rfl, by simp, by simp, by simp, by simp⟩⟩

/-- Witness for C8 amended in both regimes: power 5 stays power 5 with no
gold, power 20 at percentage 1/10 earns floor(2) = 2 gold. -/
theorem givePowerPointReward_spec_witness :
    ((givePowerPointReward
        { vassalResourceLimit := 0, vassalPopulationLimit := 0,
          enablePowerPointsExchange := false, powerPointsExchangeRate := 0,
          powerPointsRewardPercentage := (1/10) }
        { zeroEco with powerPoints := 5, ticksToNextTaxAndSalary := 100 }).1.gold = 0) ∧
    ((givePowerPointReward
        { vassalResourceLimit := 0, vassalPopulationLimit := 0,
          enablePowerPointsExchange := false, powerPointsExchangeRate := 0,
          powerPointsRewardPercentage := (1/10) }
        { zeroEco with powerPoints := 20, ticksToNextTaxAndSalary := 100 }).1.gold = 2) := by
  constructor
  · have h := (givePowerPointReward_spec
      { vassalResourceLimit := 0, vassalPopulationLimit := 0,
        enablePowerPointsExchange := false, powerPointsExchangeRate := 0,
        powerPointsRewardPercentage := (1/10) }
      { zeroEco with powerPoints := 5, ticksToNextTaxAndSalary := 100 }).2.2.2.1
        (by norm_num [zeroEco])
    simpa [zeroEco] using h.2.1
  · have h := (givePowerPointReward_spec
      { vassalResourceLimit := 0, vassalPopulationLimit := 0,
        enablePowerPointsExchange := false, powerPointsExchangeRate := 0,
        powerPointsRewardPercentage := (1/10) }
      { zeroEco with powerPoints := 20, ticksToNextTaxAndSalary := 100 }).2.2.2.2
        (by norm_num [zeroEco])
    rw [h.2.1]
    norm_num [zeroEco]

end AutoFFA.Participant

namespace AutoFFA.Damage

open AutoFFA (DiplomacyStatus)

/-- Participant fields read and written by the combat-damage path of
AutoFfaPlugin (powerPoints, the general damage accumulator, and the castle
cell used for the distance factor). -/
structure DmgParticipant where
  powerPoints : ℚ
  damageDealtTo : Nat → ℚ
  castleCellX : ℚ
  castleCellY : ℚ

/-- The UnitCauseDamage event payload as read by the handler
(AutoFFAPlugin.ts lines 223-271): owners of the two units, the damage, the
victim unit's health and config (max health, cost, uid), and the attacking
unit's cell. -/
structure DmgArgs where
  attackerOwnerUid : Nat
  victimOwnerUid : Nat
  damage : ℚ
  victimHealth : ℚ
  victimMaxHealth : ℚ
  victimCfgUid : Nat
  victimCfgCostGold : ℚ
  victimCfgCostMetal : ℚ
  victimCfgCostLumber : ℚ
  victimCfgCostPeople : ℚ
  triggeredCellX : ℚ
  triggeredCellY : ℚ

/-- Plugin state touched by the combat-damage path: the uid-to-participant
map, the participant registry, the per-config power-per-hp cache, the
bounty target, map size, tuning constants, and the engine diplomacy
relation that the handler queries directly. -/
structure PluginState where
  settlementUidToParticipantId : Nat → Option Nat
  participants : Nat → Option DmgParticipant
  unitCfgUidToPowerPerHp : Nat → Option ℚ
  bountyParticipantId : Option Nat
  mapLinearSize : ℚ
  powerPointPerHpCoeff : ℚ
  bountyPowerPointsMultiplier : ℚ
  engineDiplo : Nat → Nat → DiplomacyStatus

/-- chebyshevDistance (AutoFFAPlugin.ts lines 16-18). -/
def chebyshevDistance (x1 y1 x2 y2 : ℚ) : ℚ :=
  max |x1 - x2| |y1 - y2|

/-- AutoFfaPlugin.increaseAttackerPower (AutoFFAPlugin.ts lines 247-271):
resolve (and cache) power-per-hp for the victim config, apply the distance
factor between the attacker unit's cell and the attacker's castle, double
by the bounty multiplier when the victim carries the bounty, then add the
points to the attacker's power and to its damage accumulator entry for the
victim. -/
def increaseAttackerPower (st : PluginState) (attackerId victimId : Nat)
    (attacker : DmgParticipant) (args : DmgArgs) : PluginState :=
  let resolved := match st.unitCfgUidToPowerPerHp args.victimCfgUid with
    | some v => (v, st)
    | none =>
        let v := st.powerPointPerHpCoeff *
          (args.victimCfgCostGold + args.victimCfgCostMetal + args.victimCfgCostLumber +
            50 * args.victimCfgCostPeople) / args.victimMaxHealth
        (v, { st with unitCfgUidToPowerPerHp :=
          fun u => if u = args.victimCfgUid then some v else st.unitCfgUidToPowerPerHp u })
  let powerPointPerHp := resolved.1
  let st1 := resolved.2
  let distance := chebyshevDistance attacker.castleCellX attacker.castleCellY
    args.triggeredCellX args.triggeredCellY
  let distanceFactor := min (1 + 2 * (distance / st.mapLinearSize)) 3
  let deltaPoints0 := args.damage * powerPointPerHp * distanceFactor
  let deltaPoints := if st.bountyParticipantId = some victimId
    then deltaPoints0 * st.bountyPowerPointsMultiplier else deltaPoints0
  { st1 with participants := fun i =>
      if i = attackerId then
        (some { attacker with
          powerPoints := attacker.powerPoints + deltaPoints,
          damageDealtTo := fun k =>
            if k = victimId then attacker.damageDealtTo victimId + deltaPoints
            else attacker.damageDealtTo k })
      else st1.participants i }

/-- AutoFfaPlugin.onUnitCauseDamage (AutoFFAPlugin.ts lines 223-245):
resolve both owners to participants (bail out when unknown or identical),
query the engine diplomacy between the two settlements, accrue power on
War, and on Neutral heal the victim unit by min(maxHealth - health, damage)
when it is below max health.  Returns the updated plugin state and the
victim unit's resulting health. -/
def onUnitCauseDamage (st : PluginState) (args : DmgArgs) : PluginState × ℚ :=
  match st.settlementUidToParticipantId args.attackerOwnerUid,
        st.settlementUidToParticipantId args.victimOwnerUid with
  | some attackerId, some victimId =>
      if attackerId = victimId then (st, args.victimHealth)
      else
        match st.participants attackerId, st.participants victimId with
        | some attacker, some _ =>
            match st.engineDiplo args.attackerOwnerUid args.victimOwnerUid with
            | .War => (increaseAttackerPower st attackerId victimId attacker args, args.victimHealth)
            | .Neutral =>
                if args.victimHealth < args.victimMaxHealth
                then (st, args.victimHealth + min (args.victimMaxHealth - args.victimHealth) args.damage)
                else (st, args.victimHealth)
            | .Alliance => (st, args.victimHealth)
        | _, _ => (st, args.victimHealth)
  | _, _ => (st, args.victimHealth)

/-- C10.  Neutral-damage noninterference: when both owners resolve to
distinct registered participants and their diplomacy is Neutral, the
handler leaves the plugin state - in particular the attacker's power
points and damage accumulators - completely unchanged, and the victim
unit's health is restored by min(maxHealth - health, damage); accrual
happens only on War, and Neutral is not War. -/
theorem onUnitCauseDamage_neutral (st : PluginState) (args : DmgArgs)
    (aid vid : Nat) (att vic : DmgParticipant)
    (ha : st.settlementUidToParticipantId args.attackerOwnerUid = some aid)
    (hv : st.settlementUidToParticipantId args.victimOwnerUid = some vid)
    (hne : aid ≠ vid)
    (hpa : st.participants aid = some att)
    (hpv : st.participants vid = some vic)
    (hd : st.engineDiplo args.attackerOwnerUid args.victimOwnerUid = .Neutral)
    (hh : args.victimHealth ≤ args.victimMaxHealth)
    (hdmg : 0 ≤ args.damage) :
    (onUnitCauseDamage st args).1 = st ∧
    (onUnitCauseDamage st args).2
      = args.victimHealth + min (args.victimMaxHealth - args.victimHealth) args.damage ∧
    DiplomacyStatus.Neutral ≠ DiplomacyStatus.War := by
  have hres : onUnitCauseDamage st args
      = (if args.victimHealth < args.victimMaxHealth
         then (st, args.victimHealth + min (args.victimMaxHealth - args.victimHealth) args.damage)
         else (st, args.victimHealth)) := by
    unfold onUnitCauseDamage
    rw [ha, hv]
    simp only [hne, if_neg, ite_false]
    rw [hpa, hpv, hd]
  rcases lt_or_eq_of_le hh with hlt | heq
  · rw [hres, if_pos hlt]
    exact ⟨rfl, rfl, by simp⟩
  · rw [hres, if_neg (by rw [heq]; exact lt_irrefl _)]
    refine ⟨rfl, ?_, by simp⟩
    rw [heq]
    simp [hdmg]

/-- Witness for C10: a two-participant state at Neutral, victim unit at 6
of 10 health, damage 7, heals to 10 and the state is untouched. -/
theorem onUnitCauseDamage_neutral_witness :
    (onUnitCauseDamage
      { settlementUidToParticipantId := fun u => if u = 100 then some 0 else if u = 200 then some 1 else none,
        participants := fun i =>
          if i ≤ 1 then (some { powerPoints := 9, damageDealtTo := fun _ => 0, castleCellX := 0, castleCellY := 0 })
          else none,
        unitCfgUidToPowerPerHp := fun _ => none,
        bountyParticipantId := none,
        mapLinearSize := 100, powerPointPerHpCoeff := 1, bountyPowerPointsMultiplier := 2,
        engineDiplo := fun _ _ => .Neutral }
      { attackerOwnerUid := 100, victimOwnerUid := 200, damage := 7,
        victimHealth := 6, victimMaxHealth := 10, victimCfgUid := 0,
        victimCfgCostGold := 0, victimCfgCostMetal := 0, victimCfgCostLumber := 0,
        victimCfgCostPeople := 0, triggeredCellX := 0, triggeredCellY := 0 }).2 = 10 := by
  have h := onUnitCauseDamage_neutral
    { settlementUidToParticipantId := fun u => if u = 100 then some 0 else if u = 200 then some 1 else none,
      participants := fun i =>
        if i ≤ 1 then (some { powerPoints := 9, damageDealtTo := fun _ => 0, castleCellX := 0, castleCellY := 0 })
        else none,
      unitCfgUidToPowerPerHp := fun _ => none,
      bountyParticipantId := none,
      mapLinearSize := 100, powerPointPerHpCoeff := 1, bountyPowerPointsMultiplier := 2,
      engineDiplo := fun _ _ => .Neutral }
    { attackerOwnerUid := 100, victimOwnerUid := 200, damage := 7,
      victimHealth := 6, victimMaxHealth := 10, victimCfgUid := 0,
      victimCfgCostGold := 0, victimCfgCostMetal := 0, victimCfgCostLumber := 0,
      victimCfgCostPeople := 0, triggeredCellX := 0, triggeredCellY := 0 }
    0 1 { powerPoints := 9, damageDealtTo := fun _ => 0, castleCellX := 0, castleCellY := 0 }
    { powerPoints := 9, damageDealtTo := fun _ => 0, castleCellX := 0, castleCellY := 0 }
    (by norm_num) (by norm_num) (by norm_num) (by norm_num) (by norm_num)
    rfl (by norm_num) (by norm_num)
  rw [h.2.1]
  norm_num

end AutoFFA.Damage

namespace AutoFFA.Migration

/-- Registry view of a participant for the migration and coalition passes
(FfaParticipant fields touched there).  respawns counts respawnCastle
requests issued to the engine. -/
structure MPart where
  teamId : Nat
  suzerain : Option Nat
  isDefeated : Bool
  powerPoints : ℚ
  damageDealtTo : Nat → ℚ
  castleDamageDealtTo : Nat → ℚ
  respawns : Nat

/-- Registry view of a Team: object identity and participant references are
replaced by ids resolved through the participant registry. -/
structure MTeam where
  id : Nat
  suzerainId : Nat
  vassalIds : List Nat
  peaceUntilTick : ℚ

/-- The plugin state the migration and coalition passes read and write:
the fixed participant id set, the participant registry, and the team map
(insertion-ordered list).  The DiplomacyManager state is modelled
separately (namespace Diplo); the diplomacy fan-out calls write no field of
this state. -/
structure GState where
  pids : List Nat
  parts : Nat → MPart
  teams : List MTeam

/-- Point update of the participant registry (TypeScript mutates the shared
object). -/
def setPart (st : GState) (i : Nat) (f : MPart → MPart) : GState :=
  { st with parts := fun j => if j = i then f (st.parts j) else st.parts j }

/-- Point update of the team with the given id (TypeScript mutates the
shared Team object). -/
def updateTeam (ts : List MTeam) (tid : Nat) (f : MTeam → MTeam) : List MTeam :=
  ts.map (fun t => if t.id = tid then f t else t)

/-- this.teams.get(tid). -/
def findTeam (st : GState) (tid : Nat) : Option MTeam :=
  st.teams.find? (fun t => t.id == tid)

/-- Map.set on the vassal map: appending a fresh key, keeping an existing
one in place. -/
def addVassalId (l : List Nat) (v : Nat) : List Nat :=
  if v ∈ l then l else l ++ [v]

/-- Team.addVassal (Team.ts lines 84-96) on the registry: put the vassal in
the team's vassal map, point its teamId and suzerain reference at this
team, and - when it is flagged defeated - request a castle respawn (the
diplomacy fan-out of updateDiplomacyOnJoin and the welcome message touch no
field of this state).  The participant is NOT removed from any previous
team here. -/
def addVassal (st : GState) (tid v : Nat) : GState :=
  match findTeam st tid with
  | none => st
  | some t =>
      let ts2 := updateTeam st.teams tid (fun u => { u with vassalIds := addVassalId u.vassalIds v })
      let st1 := { st with teams := ts2 }
      setPart st1 v (fun p =>
        { p with teamId := tid, suzerain := some t.suzerainId,
                 respawns := if p.isDefeated then p.respawns + 1 else p.respawns })

/-- Team.addSuzerainAndVassals (Team.ts lines 103-108): addVassal on the
former suzerain, then on each former vassal in order. -/
def addSuzerainAndVassals (st : GState) (tid : Nat) (formerSuzerain : Nat)
    (formerVassals : List Nat) : GState :=
  formerVassals.foldl (fun s v => addVassal s tid v) (addVassal st tid formerSuzerain)

/-- Team.removeVassal (src/unnamed/part_002 lines 322-330, the Team variant
whose removeVassal the canonical plugin calls): delete the vassal from the
map and clear its suzerain reference; no-op when it is not in the map. -/
def removeVassal (st : GState) (tid v : Nat) : GState :=
  match findTeam st tid with
  | none => st
  | some t =>
      if v ∈ t.vassalIds then
        let ts2 := updateTeam st.teams tid (fun u => { u with vassalIds := u.vassalIds.erase v })
        let st1 := { st with teams := ts2 }
        setPart st1 v (fun p => { p with suzerain := none })
      else st

/-- Team.shareSpoils (Team.ts lines 174-190) expressed on the registry:
identical to TeamModel.shareSpoils, with member objects resolved through
the registry. -/
def shareSpoils (st : GState) (tid dId : Nat) (pct : ℚ) : GState :=
  match findTeam st tid with
  | none => st
  | some t =>
      let distributedPower := (st.parts dId).powerPoints * pct
      let st1 := setPart st dId (fun p =>
        { p with powerPoints := p.powerPoints - distributedPower })
      let members := t.suzerainId :: t.vassalIds
      let totalDamage := (members.map (fun m => max 1 ((st1.parts m).damageDealtTo dId))).sum
      members.foldl (fun s m => setPart s m (fun p =>
        { p with
          powerPoints := p.powerPoints + distributedPower * max 1 (p.damageDealtTo dId) / totalDamage,
          damageDealtTo := fun k => if k = dId then 0 else p.damageDealtTo k })) st1

/-- AutoFfaPlugin.findWinnerFor (AutoFFAPlugin.ts lines 401-415): scan all
participants outside the defeated participant's team and keep the one whose
GENERAL damage accumulator entry against the defeated participant strictly
exceeds the running maximum, which starts at 0. -/
def findWinnerFor (st : GState) (dId : Nat) : Option Nat :=
  (st.pids.foldl (fun acc p =>
      if (st.parts p).teamId = (st.parts dId).teamId then acc
      else if (st.parts p).damageDealtTo dId > acc.1
        then ((st.parts p).damageDealtTo dId, some p)
        else acc)
    ((0 : ℚ), (none : Option Nat))).2

/-- findWinnerFor in the castle-damage variant
(src/unnamed/part_005 lines 814-829), which matches the wording of the
specification: identical scan, but over the castle-specific accumulator. -/
def findWinnerForCastle (st : GState) (dId : Nat) : Option Nat :=
  (st.pids.foldl (fun acc p =>
      if (st.parts p).teamId = (st.parts dId).teamId then acc
      else if (st.parts p).castleDamageDealtTo dId > acc.1
        then ((st.parts p).castleDamageDealtTo dId, some p)
        else acc)
    ((0 : ℚ), (none : Option Nat))).2

/-- The body of AutoFfaPlugin.processTeamMigrations for one defeated
participant (AutoFFAPlugin.ts lines 329-398): resolve the loser team (skip
on failure), pick the winner by findWinnerFor (no winner: respawn in place
and clear the flag), resolve the winner team (skip on failure), then either
migrate the whole loser team (suzerain defeated: spoils at 20 percent for
the suzerain and 10 percent per vassal, addSuzerainAndVassals into the
winner team, delete the loser team, clear every mover's flag) or migrate
the single vassal (spoils at 10 percent, removeVassal then addVassal, clear
its flag); finally startTemporaryPeace stamps peaceUntilTick on the winner
team (its diplomacy fan-out writes no field of this state). -/
def processOneDefeated (st : GState) (dId : Nat) (tick peaceDur : ℚ) : GState :=
  match findTeam st (st.parts dId).teamId with
  | none => st
  | some loserTeam =>
      match findWinnerFor st dId with
      | none =>
          setPart st dId (fun p => { p with respawns := p.respawns + 1, isDefeated := false })
      | some w =>
          match findTeam st (st.parts w).teamId with
          | none => st
          | some winnerTeam =>
              let st5 :=
                if (st.parts dId).suzerain = none then
                  let allLosers := loserTeam.suzerainId :: loserTeam.vassalIds
                  let st1 := allLosers.foldl (fun s m =>
                    shareSpoils s winnerTeam.id m
                      (if (s.parts m).suzerain = none then (1/5) else (1/10))) st
                  let st3 := addSuzerainAndVassals st1 winnerTeam.id
                    loserTeam.suzerainId loserTeam.vassalIds
                  let st4 := { st3 with
                    teams := st3.teams.filter (fun t => t.id != loserTeam.id) }
                  allLosers.foldl (fun s m =>
                    setPart s m (fun p => { p with isDefeated := false })) st4
                else
                  let st1 := shareSpoils st winnerTeam.id dId (1/10)
                  let st2 := removeVassal st1 loserTeam.id dId
                  let st3 := addVassal st2 winnerTeam.id dId
                  setPart st3 dId (fun p => { p with isDefeated := false })
              let ts6 := updateTeam st5.teams winnerTeam.id
                (fun t => { t with peaceUntilTick := tick + peaceDur })
              { st5 with teams := ts6 }

/-- AutoFfaPlugin.processTeamMigrations (AutoFFAPlugin.ts lines 326-399):
snapshot the currently defeated participants, then run the per-participant
body over the snapshot in order. -/
def processTeamMigrations (st : GState) (tick peaceDur : ℚ) : GState :=
  (st.pids.filter (fun i => (st.parts i).isDefeated)).foldl
    (fun s d => processOneDefeated s d tick peaceDur) st

/-- AutoFfaPlugin.manageCoalitions (AutoFFAPlugin.ts lines 439-478): when
enabled and a team holds strictly more than half of all participants, merge
every other team except the strongest-suzerain one into that strongest
team, deleting each merged team (the final setWarStatusWithAll writes no
field of this state). -/
def manageCoalitions (st : GState) (enable : Bool) : GState :=
  if !enable then st
  else
    match st.teams.find? (fun t =>
        decide ((1 + (t.vassalIds.length : ℚ)) > (st.pids.length : ℚ) / 2)) with
    | none => st
    | some dominantTeam =>
        let otherTeams := st.teams.filter (fun t => t.id != dominantTeam.id)
        if otherTeams.length ≤ 1 then st
        else
          match otherTeams with
          | [] => st
          | h :: rest =>
              let coalitionLeaderTeam := rest.foldl (fun prev current =>
                if (st.parts prev.suzerainId).powerPoints >
                    (st.parts current.suzerainId).powerPoints
                then prev else current) h
              let teamsToMerge := otherTeams.filter (fun t => t.id != coalitionLeaderTeam.id)
              teamsToMerge.foldl (fun s tm =>
                let s1 := addSuzerainAndVassals s coalitionLeaderTeam.id
                  tm.suzerainId tm.vassalIds
                { s1 with teams := s1.teams.filter (fun t => t.id != tm.id) }) st


/-- Builder for concrete registry participants. -/
def mkMPart (tid : Nat) : MPart :=
  { teamId := tid, suzerain := none, isDefeated := false, powerPoints := 0,
    damageDealtTo := fun _ => 0, castleDamageDealtTo := fun _ => 0, respawns := 0 }

/-- Concrete three-team state for the victor-selection comparison:
participant 0 is the defeated one; participant 1 dealt 100 castle damage
(and no recorded general damage) to it, participant 2 dealt 50 general
damage. -/
def victorSt : GState :=
  { pids := [0, 1, 2],
    parts := fun i =>
      if i = 1 then
        { mkMPart 1 with castleDamageDealtTo := fun k => if k = 0 then 100 else 0 }
      else if i = 2 then
        { mkMPart 2 with damageDealtTo := fun k => if k = 0 then 50 else 0 }
      else mkMPart 0,
    teams := [{ id := 0, suzerainId := 0, vassalIds := [], peaceUntilTick := 0 },
              { id := 1, suzerainId := 1, vassalIds := [], peaceUntilTick := 0 },
              { id := 2, suzerainId := 2, vassalIds := [], peaceUntilTick := 0 }] }

/-- C4 counterexample: the canonical findWinnerFor credits participant 2
(the greatest GENERAL damage), while the participant with the greatest
castle-damage credit is participant 1 (as the specification's castle-damage
rule, the part_005 variant, would select), so the claim's victor rule does
not describe the canonical code. -/
theorem findWinnerFor_not_castle :
    findWinnerFor victorSt 0 = some 2 ∧
    findWinnerForCastle victorSt 0 = some 1 ∧
    (2 : Nat) ≠ 1 := by
  refine ⟨?_, ?_, by decide⟩ <;> decide


/-- Accumulator invariant of the findWinnerFor scan: none carries running
maximum 0, some w carries a positive running maximum equal to the damage of
the already-scanned outside participant w. -/
def GoodAcc (st : GState) (dId : Nat) (acc : ℚ × Option Nat) : Prop :=
  (acc.2 = none → acc.1 = 0) ∧
  (∀ w, acc.2 = some w → w ∈ st.pids ∧
    (st.parts w).teamId ≠ (st.parts dId).teamId ∧
    (st.parts w).damageDealtTo dId = acc.1 ∧ 0 < acc.1)

theorem findWinnerFor_fold (st : GState) (dId : Nat) (l : List Nat)
    (acc : ℚ × Option Nat)
    (hsub : ∀ p ∈ l, p ∈ st.pids) (hacc : GoodAcc st dId acc) :
    GoodAcc st dId (l.foldl (fun acc p =>
        if (st.parts p).teamId = (st.parts dId).teamId then acc
        else if (st.parts p).damageDealtTo dId > acc.1
          then ((st.parts p).damageDealtTo dId, some p)
          else acc) acc) ∧
    acc.1 ≤ (l.foldl (fun acc p =>
        if (st.parts p).teamId = (st.parts dId).teamId then acc
        else if (st.parts p).damageDealtTo dId > acc.1
          then ((st.parts p).damageDealtTo dId, some p)
          else acc) acc).1 ∧
    (∀ p ∈ l, (st.parts p).teamId ≠ (st.parts dId).teamId →
      (st.parts p).damageDealtTo dId ≤ (l.foldl (fun acc p =>
        if (st.parts p).teamId = (st.parts dId).teamId then acc
        else if (st.parts p).damageDealtTo dId > acc.1
          then ((st.parts p).damageDealtTo dId, some p)
          else acc) acc).1) := by
  induction l generalizing acc with
  | nil => exact ⟨hacc, le_refl _, fun p hp => absurd hp (List.not_mem_nil p)⟩
  | cons q l ih =>
      have hq : q ∈ st.pids := hsub q (List.mem_cons_self q l)
      have hsub2 : ∀ p ∈ l, p ∈ st.pids := fun p hp => hsub p (List.mem_cons_of_mem q hp)
      have hnn : 0 ≤ acc.1 := by
        rcases hco : acc.2 with _ | w
        · exact le_of_eq (hacc.1 hco).symm
        · exact le_of_lt (hacc.2 w hco).2.2.2
      simp only [List.foldl_cons]
      by_cases hteam : (st.parts q).teamId = (st.parts dId).teamId
      · rw [if_pos hteam]
        rcases ih acc hsub2 hacc with ⟨hg, hle, hcov⟩
        refine ⟨hg, hle, fun p hp hout => ?_⟩
        rcases List.mem_cons.mp hp with rfl | hmem
        · exact absurd hteam hout
        · exact hcov p hmem hout
      · rw [if_neg hteam]
        by_cases hgt : (st.parts q).damageDealtTo dId > acc.1
        · rw [if_pos hgt]
          have hacc2 : GoodAcc st dId ((st.parts q).damageDealtTo dId, some q) := by
            constructor
            · intro hcontra; exact absurd hcontra (by simp)
            · intro w hw
              have hwq : w = q := (by simpa using hw : q = w).symm
              subst hwq
              exact ⟨hq, hteam, rfl, lt_of_le_of_lt hnn hgt⟩
          rcases ih _ hsub2 hacc2 with ⟨hg, hle, hcov⟩
          refine ⟨hg, le_trans (le_of_lt hgt) hle, fun p hp hout => ?_⟩
          rcases List.mem_cons.mp hp with rfl | hmem
          · exact le_trans (le_refl _) hle
          · exact hcov p hmem hout
        · rw [if_neg hgt]
          rcases ih acc hsub2 hacc with ⟨hg, hle, hcov⟩
          refine ⟨hg, hle, fun p hp hout => ?_⟩
          rcases List.mem_cons.mp hp with rfl | hmem
          · exact le_trans (le_of_not_lt hgt) hle
          · exact hcov p hmem hout

/-- C4 amended: the canonical victor rule uses the GENERAL damage
accumulator: a returned winner lies outside the defeated participant's
team, has strictly positive general damage credit, and no outside
participant has more; when no outside participant has positive general
credit, no winner is found and the migration body only respawns the
defeated participant's castle and clears its flag, migrating nobody. -/
theorem findWinnerFor_general_damage (st : GState) (dId : Nat) (tick peaceDur : ℚ) :
    (∀ w, findWinnerFor st dId = some w →
      w ∈ st.pids ∧ (st.parts w).teamId ≠ (st.parts dId).teamId ∧
      0 < (st.parts w).damageDealtTo dId ∧
      ∀ p ∈ st.pids, (st.parts p).teamId ≠ (st.parts dId).teamId →
        (st.parts p).damageDealtTo dId ≤ (st.parts w).damageDealtTo dId) ∧
    (findWinnerFor st dId = none →
      ∀ p ∈ st.pids, (st.parts p).teamId ≠ (st.parts dId).teamId →
        (st.parts p).damageDealtTo dId ≤ 0) ∧
    (∀ lt, findTeam st (st.parts dId).teamId = some lt →
      findWinnerFor st dId = none →
      processOneDefeated st dId tick peaceDur
        = setPart st dId (fun p => { p with respawns := p.respawns + 1, isDefeated := false })) := by
  have h0 : GoodAcc st dId ((0 : ℚ), (none : Option Nat)) := by
    constructor
    · intro _; rfl
    · intro w hw; exact absurd hw (by simp)
  rcases findWinnerFor_fold st dId st.pids ((0 : ℚ), (none : Option Nat))
    (fun p hp => hp) h0 with ⟨hg, _, hcov⟩
  refine ⟨?_, ?_, ?_⟩
  · intro w hw
    rcases hg.2 w hw with ⟨hmem, hout, heq, hpos⟩
    exact ⟨hmem, hout, heq ▸ hpos, fun p hp hpo => heq ▸ hcov p hp hpo⟩
  · intro hn p hp hout
    have hz := hg.1 hn
    exact hz ▸ hcov p hp hout
  · intro lt hlt hn
    unfold processOneDefeated
    rw [hlt, hn]

/-- Witness for C4 amended: a state where nobody damaged the defeated
participant 0: no winner, so the body respawns it in place. -/
theorem findWinnerFor_general_damage_witness :
    processOneDefeated
      { pids := [0, 1],
        parts := fun i => if i = 0 then { mkMPart 0 with isDefeated := true } else mkMPart 1,
        teams := [{ id := 0, suzerainId := 0, vassalIds := [], peaceUntilTick := 0 },
                  { id := 1, suzerainId := 1, vassalIds := [], peaceUntilTick := 0 }] }
      0 5 7
      = setPart
      { pids := [0, 1],
        parts := fun i => if i = 0 then { mkMPart 0 with isDefeated := true } else mkMPart 1,
        teams := [{ id := 0, suzerainId := 0, vassalIds := [], peaceUntilTick := 0 },
                  { id := 1, suzerainId := 1, vassalIds := [], peaceUntilTick := 0 }] }
      0 (fun p => { p with respawns := p.respawns + 1, isDefeated := false }) := by
  exact (findWinnerFor_general_damage _ 0 5 7).2.2
    { id := 0, suzerainId := 0, vassalIds := [], peaceUntilTick := 0 } rfl rfl


/-- Whether team t claims participant p, as its suzerain or as one of its
vassals. -/
def claimsB (t : MTeam) (p : Nat) : Bool :=
  decide (t.suzerainId = p ∨ p ∈ t.vassalIds)

/-- Number of teams claiming participant p. -/
def claimCount (st : GState) (p : Nat) : Nat :=
  st.teams.countP (fun t => claimsB t p)

/-- Internal coherence of one team: its members are registered
participants whose teamId points back at the team, the suzerain's
back-reference is none and each vassal's is set, the suzerain is not also
a vassal, and the vassal key list is duplicate-free. -/
def teamOK (st : GState) (t : MTeam) : Prop :=
  t.suzerainId ∈ st.pids ∧
  (st.parts t.suzerainId).teamId = t.id ∧
  (st.parts t.suzerainId).suzerain = none ∧
  t.suzerainId ∉ t.vassalIds ∧
  t.vassalIds.Nodup ∧
  ∀ v ∈ t.vassalIds, v ∈ st.pids ∧ (st.parts v).teamId = t.id ∧ (st.parts v).suzerain ≠ none

/-- The single-hierarchy-membership invariant: team ids are distinct,
every participant is claimed by EXACTLY ONE team, and every team is
internally coherent (in particular nobody is suzerain and vassal at
once). -/
def WF (st : GState) : Prop :=
  (st.teams.map MTeam.id).Nodup ∧
  (∀ p ∈ st.pids, claimCount st p = 1) ∧
  (∀ t ∈ st.teams, teamOK st t)

theorem findTeam_mem (st : GState) (tid : Nat) (t : MTeam)
    (h : findTeam st tid = some t) : t ∈ st.teams ∧ t.id = tid := by
  unfold findTeam at h
  refine ⟨List.mem_of_find?_eq_some h, ?_⟩
  have := List.find?_some h
  simpa using this

theorem mem_teams_id_unique (ts : List MTeam) (hnd : (ts.map MTeam.id).Nodup)
    (t1 t2 : MTeam) (h1 : t1 ∈ ts) (h2 : t2 ∈ ts) (heq : t1.id = t2.id) : t1 = t2 := by
  induction ts with
  | nil => exact absurd h1 (List.not_mem_nil t1)
  | cons h ts ih =>
      rw [List.map_cons, List.nodup_cons] at hnd
      rcases List.mem_cons.mp h1 with rfl | hm1 <;> rcases List.mem_cons.mp h2 with rfl | hm2
      · rfl
      · refine absurd ?_ hnd.1
        rw [heq]
        exact List.mem_map_of_mem MTeam.id hm2
      · refine absurd ?_ hnd.1
        rw [← heq]
        exact List.mem_map_of_mem MTeam.id hm1
      · exact ih hnd.2 hm1 hm2

theorem find?_id_of_mem (ts : List MTeam) (hnd : (ts.map MTeam.id).Nodup)
    (t : MTeam) (ht : t ∈ ts) : ts.find? (fun u => u.id == t.id) = some t := by
  induction ts with
  | nil => exact absurd ht (List.not_mem_nil t)
  | cons h ts ih =>
      have hnd2 := hnd
      rw [List.map_cons, List.nodup_cons] at hnd2
      rw [List.find?_cons]
      by_cases hh : h.id == t.id
      · have heq : h.id = t.id := by simpa using hh
        have : h = t := mem_teams_id_unique (h :: ts) hnd h t (List.mem_cons_self h ts) ht heq
        simp [hh, this]
      · have hne : t ≠ h := by
          intro hcontra
          exact hh (by simp [hcontra])
        rcases List.mem_cons.mp ht with rfl | hm
        · exact absurd rfl hne
        · simp only [hh]
          exact ih hnd2.2 hm

theorem findTeam_of_mem (st : GState) (t : MTeam)
    (hnd : (st.teams.map MTeam.id).Nodup) (ht : t ∈ st.teams) :
    findTeam st t.id = some t := by
  unfold findTeam
  exact find?_id_of_mem st.teams hnd t ht

theorem updateTeam_map_id (ts : List MTeam) (tid : Nat) (F : MTeam → MTeam)
    (hid : ∀ u, (F u).id = u.id) :
    (updateTeam ts tid F).map MTeam.id = ts.map MTeam.id := by
  unfold updateTeam
  rw [List.map_map]
  apply List.map_congr_left
  intro t _
  by_cases h : t.id = tid
  · simp [h, hid]
  · simp [h]

theorem find?_updateTeam (ts : List MTeam) (tid : Nat) (F : MTeam → MTeam)
    (hid : ∀ u, (F u).id = u.id) (t : MTeam)
    (h : ts.find? (fun u => u.id == tid) = some t) :
    (updateTeam ts tid F).find? (fun u => u.id == tid) = some (F t) := by
  induction ts with
  | nil => simp at h
  | cons a ts ih =>
      unfold updateTeam
      rw [List.map_cons, List.find?_cons]
      rw [List.find?_cons] at h
      by_cases ha : a.id == tid
      · have haeq : a.id = tid := by simpa using ha
        simp only [ha] at h
        have hat : a = t := by simpa using h
        subst hat
        simp [haeq, hid]
      · have haeq : ¬ a.id = tid := by simpa using ha
        simp only [ha] at h
        have : (if a.id = tid then F a else a) = a := if_neg haeq
        rw [this]
        have ha2 : (a.id == tid) = false := by simpa using haeq
        simp only [ha2]
        exact ih h

theorem updateTeam_updateTeam (ts : List MTeam) (tid : Nat) (F G : MTeam → MTeam)
    (hid : ∀ u, (F u).id = u.id) :
    updateTeam (updateTeam ts tid F) tid G = updateTeam ts tid (fun u => G (F u)) := by
  unfold updateTeam
  rw [List.map_map]
  apply List.map_congr_left
  intro t _
  by_cases h : t.id = tid
  · simp [h, hid]
  · simp [h]

theorem mem_foldl_addVassalId (ms : List Nat) (l : List Nat) (x : Nat) :
    x ∈ ms.foldl addVassalId l ↔ x ∈ l ∨ x ∈ ms := by
  induction ms generalizing l with
  | nil => simp
  | cons m ms ih =>
      rw [List.foldl_cons, ih]
      unfold addVassalId
      by_cases hm : m ∈ l
      · simp only [if_pos hm]
        constructor
        · rintro (h | h)
          · exact Or.inl h
          · exact Or.inr (List.mem_cons_of_mem m h)
        · rintro (h | h)
          · exact Or.inl h
          · rcases List.mem_cons.mp h with rfl | h2
            · exact Or.inl hm
            · exact Or.inr h2
      · simp only [if_neg hm, List.mem_append, List.mem_singleton]
        constructor
        · rintro ((h | rfl) | h)
          · exact Or.inl h
          · exact Or.inr (List.mem_cons_self x ms)
          · exact Or.inr (List.mem_cons_of_mem m h)
        · rintro (h | h)
          · exact Or.inl (Or.inl h)
          · rcases List.mem_cons.mp h with rfl | h2
            · exact Or.inl (Or.inr rfl)
            · exact Or.inr h2

theorem nodup_foldl_addVassalId (ms : List Nat) (l : List Nat) (h : l.Nodup) :
    (ms.foldl addVassalId l).Nodup := by
  induction ms generalizing l with
  | nil => exact h
  | cons m ms ih =>
      rw [List.foldl_cons]
      apply ih
      unfold addVassalId
      by_cases hm : m ∈ l
      · rwa [if_pos hm]
      · rw [if_neg hm]
        rw [List.nodup_append]
        exact ⟨h, List.nodup_singleton m, by simpa using hm⟩

theorem countP_id_eq (ts : List MTeam) (i : Nat) :
    ts.countP (fun t => t.id == i) = (ts.map MTeam.id).count i := by
  induction ts with
  | nil => rfl
  | cons h ts ih =>
      rw [List.map_cons, List.countP_cons, List.count_cons, ih]

theorem countP_id_one (ts : List MTeam) (hnd : (ts.map MTeam.id).Nodup)
    (t : MTeam) (ht : t ∈ ts) : ts.countP (fun u => u.id == t.id) = 1 := by
  rw [countP_id_eq]
  exact List.count_eq_one_of_mem hnd (List.mem_map_of_mem MTeam.id ht)


/-- Two states agreeing on everything the membership invariant reads: the
participant id set, the team list, and each participant's teamId and
suzerain reference. -/
def MembEq (st st2 : GState) : Prop :=
  st2.pids = st.pids ∧ st2.teams = st.teams ∧
  ∀ i, (st2.parts i).teamId = (st.parts i).teamId ∧
    (st2.parts i).suzerain = (st.parts i).suzerain

theorem MembEq.rfl (st : GState) : MembEq st st :=
  ⟨Eq.refl _, Eq.refl _, fun _ => ⟨Eq.refl _, Eq.refl _⟩⟩

theorem MembEq.trans2 {st1 st2 st3 : GState} (h12 : MembEq st1 st2)
    (h23 : MembEq st2 st3) : MembEq st1 st3 := by
  refine ⟨h23.1.trans h12.1, h23.2.1.trans h12.2.1, fun i => ?_⟩
  exact ⟨(h23.2.2 i).1.trans (h12.2.2 i).1, (h23.2.2 i).2.trans (h12.2.2 i).2⟩

theorem teamOK_of_membEq {st st2 : GState} (h : MembEq st st2) (t : MTeam)
    (hok : teamOK st t) : teamOK st2 t := by
  obtain ⟨hp, _, hparts⟩ := h
  obtain ⟨h1, h2, h3, h4, h5, h6⟩ := hok
  refine ⟨hp ▸ h1, (hparts t.suzerainId).1.trans h2, (hparts t.suzerainId).2.trans h3,
    h4, h5, fun v hv => ?_⟩
  obtain ⟨hv1, hv2, hv3⟩ := h6 v hv
  exact ⟨hp ▸ hv1, (hparts v).1.trans hv2, fun hc => hv3 (((hparts v).2.symm.trans hc))⟩

theorem WF_of_membEq {st st2 : GState} (h : MembEq st st2) (hwf : WF st) : WF st2 := by
  obtain ⟨hnd, hcnt, hok⟩ := hwf
  refine ⟨h.2.1 ▸ hnd, ?_, ?_⟩
  · intro p hp
    unfold claimCount
    rw [h.2.1]
    exact hcnt p (h.1 ▸ hp)
  · intro t ht
    exact teamOK_of_membEq h t (hok t (h.2.1 ▸ ht))

theorem membEq_setPart (st : GState) (i : Nat) (f : MPart → MPart)
    (hf : ∀ p, (f p).teamId = p.teamId ∧ (f p).suzerain = p.suzerain) :
    MembEq st (setPart st i f) := by
  refine ⟨Eq.refl _, Eq.refl _, fun j => ?_⟩
  unfold setPart
  by_cases hj : j = i
  · simp only [hj, if_pos rfl]
    exact hf (st.parts i)
  · simp [hj]

theorem membEq_foldl {α : Type} (l : List α) (step : GState → α → GState)
    (st : GState) (hstep : ∀ s m, MembEq s (step s m)) :
    MembEq st (l.foldl step st) := by
  induction l generalizing st with
  | nil => exact MembEq.rfl st
  | cons m l ih =>
      rw [List.foldl_cons]
      exact MembEq.trans2 (hstep st m) (ih (step st m))

theorem membEq_shareSpoils (st : GState) (tid dId : Nat) (pct : ℚ) :
    MembEq st (shareSpoils st tid dId pct) := by
  unfold shareSpoils
  cases h : findTeam st tid with
  | none => exact MembEq.rfl st
  | some t =>
      refine MembEq.trans2 ?_
        (membEq_foldl _ _ _ (fun s m => membEq_setPart s m _ (fun p => ⟨rfl, rfl⟩)))
      exact membEq_setPart st dId _ (fun p => ⟨rfl, rfl⟩)

theorem claimsB_peace (t : MTeam) (q : ℚ) (p : Nat) :
    claimsB { t with peaceUntilTick := q } p = claimsB t p := rfl

theorem WF_updateTeam_peace (st : GState) (tid : Nat) (q : ℚ) (h : WF st) :
    WF { st with teams := updateTeam st.teams tid (fun t => { t with peaceUntilTick := q }) } := by
  obtain ⟨hnd, hcnt, hok⟩ := h
  have hid : ∀ u : MTeam, ({ u with peaceUntilTick := q } : MTeam).id = u.id := fun _ => rfl
  refine ⟨?_, ?_, ?_⟩
  · simpa [updateTeam_map_id st.teams tid _ hid] using hnd
  · intro p hp
    unfold claimCount updateTeam
    rw [List.countP_map]
    have := hcnt p hp
    unfold claimCount at this
    rw [← this]
    apply List.countP_congr
    intro t _
    by_cases ht : t.id = tid
    · simp only [Function.comp, if_pos ht]
      rfl
    · simp only [Function.comp, if_neg ht]
  · intro t ht
    unfold updateTeam at ht
    rcases List.mem_map.mp ht with ⟨u, hu, rfl⟩
    by_cases hu2 : u.id = tid
    · simp only [if_pos hu2]
      obtain ⟨h1, h2, h3, h4, h5, h6⟩ := hok u hu
      exact ⟨h1, h2, h3, h4, h5, h6⟩
    · simp only [if_neg hu2]
      exact hok u hu


theorem updateTeam_id (ts : List MTeam) (tid : Nat) :
    updateTeam ts tid (fun u => u) = ts := by
  unfold updateTeam
  have : ∀ t ∈ ts, (if t.id = tid then t else t) = t := fun t _ => ite_self t
  rw [List.map_congr_left this]
  simp

theorem addVassal_spec (st : GState) (tid v : Nat) (t : MTeam)
    (h : findTeam st tid = some t) :
    (addVassal st tid v).pids = st.pids ∧
    (addVassal st tid v).teams
      = updateTeam st.teams tid (fun u => { u with vassalIds := addVassalId u.vassalIds v }) ∧
    (∀ j, j ≠ v → (addVassal st tid v).parts j = st.parts j) ∧
    ((addVassal st tid v).parts v).teamId = tid ∧
    ((addVassal st tid v).parts v).suzerain = some t.suzerainId := by
  unfold addVassal
  rw [h]
  refine ⟨rfl, rfl, ?_, ?_, ?_⟩
  · intro j hj
    simp only [setPart]
    rw [if_neg hj]
  · simp [setPart]
  · simp [setPart]

theorem addAll_spec (ms : List Nat) (st : GState) (tid : Nat) (t : MTeam)
    (h : findTeam st tid = some t) :
    (ms.foldl (fun s m => addVassal s tid m) st).pids = st.pids ∧
    (ms.foldl (fun s m => addVassal s tid m) st).teams
      = updateTeam st.teams tid (fun u => { u with vassalIds := ms.foldl addVassalId u.vassalIds }) ∧
    (∀ j, j ∉ ms → (ms.foldl (fun s m => addVassal s tid m) st).parts j = st.parts j) ∧
    (∀ j ∈ ms, ((ms.foldl (fun s m => addVassal s tid m) st).parts j).teamId = tid ∧
      ((ms.foldl (fun s m => addVassal s tid m) st).parts j).suzerain = some t.suzerainId) := by
  induction ms generalizing st t with
  | nil =>
      refine ⟨rfl, ?_, fun j _ => rfl, fun j hj => absurd hj (List.not_mem_nil j)⟩
      simp only [List.foldl_nil]
      exact (updateTeam_id st.teams tid).symm
  | cons m ms ih =>
      have spec1 := addVassal_spec st tid m t h
      have hfind1 : findTeam (addVassal st tid m) tid
          = some { t with vassalIds := addVassalId t.vassalIds m } := by
        unfold findTeam
        rw [spec1.2.1]
        exact find?_updateTeam st.teams tid
          (fun u => { u with vassalIds := addVassalId u.vassalIds m }) (fun u => rfl) t h
      rcases ih (addVassal st tid m) _ hfind1 with ⟨hp, hteams, hfr, hmem⟩
      rw [List.foldl_cons]
      refine ⟨hp.trans spec1.1, ?_, ?_, ?_⟩
      · rw [hteams, spec1.2.1, updateTeam_updateTeam st.teams tid
          (fun u => { u with vassalIds := addVassalId u.vassalIds m })
          (fun u => { u with vassalIds := ms.foldl addVassalId u.vassalIds }) (fun u => rfl)]
        rfl
      · intro j hj
        have hjm : j ≠ m := fun hc => hj (hc ▸ List.mem_cons_self m ms)
        have hjms : j ∉ ms := fun hc => hj (List.mem_cons_of_mem m hc)
        rw [hfr j hjms, spec1.2.2.1 j hjm]
      · intro j hj
        rcases List.mem_cons.mp hj with rfl | hjm
        · by_cases hjms : j ∈ ms
          · exact hmem j hjms
          · rw [hfr j hjms]
            exact ⟨spec1.2.2.2.1, spec1.2.2.2.2⟩
        · exact hmem j hjm


theorem countP_congr_eq (l : List MTeam) (p q : MTeam → Bool)
    (h : ∀ t ∈ l, p t = q t) : l.countP p = l.countP q := by
  apply List.countP_congr
  intro t ht
  rw [h t ht]

theorem claimsB_true_iff (t : MTeam) (p : Nat) :
    claimsB t p = true ↔ (t.suzerainId = p ∨ p ∈ t.vassalIds) := by
  simp [claimsB]

theorem claim_unique (st : GState) (h : WF st) (p : Nat) (hp : p ∈ st.pids)
    (t1 t2 : MTeam) (h1 : t1 ∈ st.teams) (h2 : t2 ∈ st.teams)
    (hc1 : claimsB t1 p = true) (hc2 : claimsB t2 p = true) : t1 = t2 := by
  have hcnt := h.2.1 p hp
  unfold claimCount at hcnt
  rw [List.countP_eq_length_filter] at hcnt
  rcases List.length_eq_one.mp hcnt with ⟨u, hu⟩
  have m1 : t1 ∈ st.teams.filter (fun t => claimsB t p) := List.mem_filter.mpr ⟨h1, hc1⟩
  have m2 : t2 ∈ st.teams.filter (fun t => claimsB t p) := List.mem_filter.mpr ⟨h2, hc2⟩
  rw [hu] at m1 m2
  rw [List.mem_singleton.mp m1, List.mem_singleton.mp m2]

theorem claimant_exists (st : GState) (h : WF st) (p : Nat) (hp : p ∈ st.pids) :
    ∃ t ∈ st.teams, claimsB t p = true := by
  have hcnt := h.2.1 p hp
  have hpos : 0 < st.teams.countP (fun t => claimsB t p) := by
    unfold claimCount at hcnt
    omega
  exact List.countP_pos_iff.mp hpos

theorem member_mem_pids (st : GState) (h : WF st) (t : MTeam) (ht : t ∈ st.teams)
    (p : Nat) (hc : claimsB t p = true) : p ∈ st.pids := by
  obtain ⟨h1, _, _, _, _, h6⟩ := h.2.2 t ht
  rcases (claimsB_true_iff t p).mp hc with rfl | hv
  · exact h1
  · exact (h6 p hv).1

theorem claimant_teamId (st : GState) (h : WF st) (t : MTeam) (ht : t ∈ st.teams)
    (p : Nat) (hc : claimsB t p = true) : (st.parts p).teamId = t.id := by
  obtain ⟨_, h2, _, _, _, h6⟩ := h.2.2 t ht
  rcases (claimsB_true_iff t p).mp hc with rfl | hv
  · exact h2
  · exact (h6 p hv).2.1

/-- The team found at a participant's teamId claims it (under WF). -/
theorem findTeam_claims (st : GState) (h : WF st) (p : Nat) (hp : p ∈ st.pids)
    (lt : MTeam) (hlt : findTeam st (st.parts p).teamId = some lt) :
    claimsB lt p = true ∧ lt ∈ st.teams := by
  rcases claimant_exists st h p hp with ⟨ct, hct, hcc⟩
  have hid : (st.parts p).teamId = ct.id := claimant_teamId st h ct hct p hcc
  rcases findTeam_mem st _ lt hlt with ⟨hmem, hlid⟩
  have : lt = ct := mem_teams_id_unique st.teams h.1 lt ct hmem hct (by rw [hlid, hid])
  rw [this]
  exact ⟨hcc, hct⟩

/-- Role of a claimed participant: suzerain reference none exactly for the
team suzerain. -/
theorem claim_role (st : GState) (h : WF st) (t : MTeam) (ht : t ∈ st.teams)
    (p : Nat) (hc : claimsB t p = true) :
    ((st.parts p).suzerain = none → t.suzerainId = p) ∧
    ((st.parts p).suzerain ≠ none → p ∈ t.vassalIds) := by
  obtain ⟨_, _, h3, _, _, h6⟩ := h.2.2 t ht
  rcases (claimsB_true_iff t p).mp hc with rfl | hv
  · exact ⟨fun _ => rfl, fun hne => absurd h3 hne⟩
  · exact ⟨fun hn => absurd hn (h6 p hv).2.2, fun _ => hv⟩


/-- Moving a whole team (suzerain plus vassals) into another team and then
deleting the source team preserves the single-membership invariant.  This is
the membership content of the suzerain-defeated migration branch and of
each coalition merge step. -/
theorem merge_WF (st : GState) (lt wt : MTeam) (st3 : GState) (hwf : WF st)
    (hl : lt ∈ st.teams) (hw : wt ∈ st.teams) (hne : wt.id ≠ lt.id)
    (h3 : st3 = addSuzerainAndVassals st wt.id lt.suzerainId lt.vassalIds) :
    WF { st3 with teams := st3.teams.filter (fun t => t.id != lt.id) } ∧
    st3.pids = st.pids ∧
    (∀ j, j ∉ lt.suzerainId :: lt.vassalIds → st3.parts j = st.parts j) ∧
    st3.teams = updateTeam st.teams wt.id
      (fun u => { u with vassalIds := (lt.suzerainId :: lt.vassalIds).foldl addVassalId u.vassalIds }) := by
  have hfind : findTeam st wt.id = some wt := findTeam_of_mem st wt hwf.1 hw
  have hfold : st3 = (lt.suzerainId :: lt.vassalIds).foldl (fun s m => addVassal s wt.id m) st := h3
  obtain ⟨hp, hteams, hfr, hmem⟩ := addAll_spec (lt.suzerainId :: lt.vassalIds) st wt.id wt hfind
  rw [← hfold] at hp hteams hfr hmem
  have hmoved : ∀ p ∈ lt.suzerainId :: lt.vassalIds, claimsB lt p = true := by
    intro p hpm
    rw [claimsB_true_iff]
    rcases List.mem_cons.mp hpm with rfl | hv
    · exact Or.inl rfl
    · exact Or.inr hv
  have hOnlyLt : ∀ p ∈ lt.suzerainId :: lt.vassalIds, ∀ t ∈ st.teams,
      claimsB t p = true → t = lt := by
    intro p hpm t ht hc
    exact claim_unique st hwf p (member_mem_pids st hwf lt hl p (hmoved p hpm))
      t lt ht hl hc (hmoved p hpm)
  have hNotLt : ∀ p, p ∉ lt.suzerainId :: lt.vassalIds → claimsB lt p = false := by
    intro p hpn
    cases hcl : claimsB lt p with
    | false => rfl
    | true =>
        refine absurd ?_ hpn
        rcases (claimsB_true_iff lt p).mp hcl with heq | hv
        · exact heq ▸ List.mem_cons_self _ _
        · exact List.mem_cons_of_mem _ hv
  have hwne : wt ≠ lt := fun hc => hne (hc ▸ rfl)
  have hwszn : wt.suzerainId ∉ lt.suzerainId :: lt.vassalIds := by
    intro hc
    exact hwne (hOnlyLt wt.suzerainId hc wt hw ((claimsB_true_iff wt _).mpr (Or.inl rfl)))
  have hwvs : ∀ v ∈ wt.vassalIds, v ∉ lt.suzerainId :: lt.vassalIds := by
    intro v hv hc
    exact hwne (hOnlyLt v hc wt hw ((claimsB_true_iff wt v).mpr (Or.inr hv)))
  have hfc : ∀ u p, claimsB { u with
      vassalIds := (lt.suzerainId :: lt.vassalIds).foldl addVassalId u.vassalIds } p = true
      ↔ (claimsB u p = true ∨ p ∈ lt.suzerainId :: lt.vassalIds) := by
    intro u p
    rw [claimsB_true_iff, claimsB_true_iff]
    simp only [mem_foldl_addVassalId]
    tauto
  obtain ⟨hw1, hw2, hw3, hw4, hw5, hw6⟩ := hwf.2.2 wt hw
  refine ⟨⟨?_, ?_, ?_⟩, hp, hfr, hteams⟩
  · -- distinct team ids survive
    have hids : st3.teams.map MTeam.id = st.teams.map MTeam.id := by
      rw [hteams]
      exact updateTeam_map_id st.teams wt.id _ (fun u => rfl)
    have hsub : (st3.teams.filter (fun t => t.id != lt.id)).Sublist st3.teams :=
      List.filter_sublist _
    have : ((st3.teams.filter (fun t => t.id != lt.id)).map MTeam.id).Sublist
        (st.teams.map MTeam.id) := hids ▸ hsub.map MTeam.id
    exact hwf.1.sublist this
  · -- unique claims
    intro p hp4
    have hpst : p ∈ st.pids := by
      have : p ∈ st3.pids := hp4
      rwa [hp] at this
    show (st3.teams.filter (fun t => t.id != lt.id)).countP (fun t => claimsB t p) = 1
    rw [List.countP_filter, hteams]
    unfold updateTeam
    rw [List.countP_map]
    by_cases hpm : p ∈ lt.suzerainId :: lt.vassalIds
    · have hpt : ∀ t ∈ st.teams,
          ((fun t => claimsB t p && (t.id != lt.id)) ∘ (fun t =>
            if t.id = wt.id then { t with vassalIds :=
              (lt.suzerainId :: lt.vassalIds).foldl addVassalId t.vassalIds } else t)) t
          = (fun u => u.id == wt.id) t := by
        intro t ht
        by_cases hid1 : t.id = wt.id
        · simp only [Function.comp, if_pos hid1]
          have hcl : claimsB { t with vassalIds :=
              (lt.suzerainId :: lt.vassalIds).foldl addVassalId t.vassalIds } p = true :=
            (hfc t p).mpr (Or.inr hpm)
          have hq : (t.id != lt.id) = true := by
            rw [bne_iff_ne]
            rw [hid1]
            exact hne
          rw [hcl, hq]
          simp [hid1]
        · simp only [Function.comp, if_neg hid1]
          by_cases hid2 : t.id = lt.id
          · have : t = lt := mem_teams_id_unique st.teams hwf.1 t lt ht hl (by rw [hid2])
            have hq : (t.id != lt.id) = false := by
              simp [hid2]
            rw [hq, Bool.and_false]
            simp [hid1]
          · have hcl : claimsB t p = false := by
              cases hcl2 : claimsB t p with
              | false => rfl
              | true =>
                  have : t = lt := hOnlyLt p hpm t ht hcl2
                  exact absurd (this ▸ rfl) hid2
            rw [hcl, Bool.false_and]
            simp [hid1]
      rw [countP_congr_eq st.teams _ _ hpt]
      exact countP_id_one st.teams hwf.1 wt hw
    · have hpt : ∀ t ∈ st.teams,
          ((fun t => claimsB t p && (t.id != lt.id)) ∘ (fun t =>
            if t.id = wt.id then { t with vassalIds :=
              (lt.suzerainId :: lt.vassalIds).foldl addVassalId t.vassalIds } else t)) t
          = (fun u => claimsB u p) t := by
        intro t ht
        by_cases hid1 : t.id = wt.id
        · simp only [Function.comp, if_pos hid1]
          have hiff : claimsB { t with vassalIds :=
              (lt.suzerainId :: lt.vassalIds).foldl addVassalId t.vassalIds } p = true
              ↔ claimsB t p = true := by
            rw [hfc]
            exact or_iff_left hpm
          have hcl := Bool.coe_iff_coe.mp hiff
          have hq : (t.id != lt.id) = true := by
            rw [bne_iff_ne, hid1]
            exact hne
          rw [hcl, hq, Bool.and_true]
        · simp only [Function.comp, if_neg hid1]
          by_cases hid2 : t.id = lt.id
          · have hteq : t = lt := mem_teams_id_unique st.teams hwf.1 t lt ht hl (by rw [hid2])
            have hq : (t.id != lt.id) = false := by simp [hid2]
            rw [hq, Bool.and_false, hteq, hNotLt p hpm]
          · have hq : (t.id != lt.id) = true := by simp [hid2]
            rw [hq, Bool.and_true]
      rw [countP_congr_eq st.teams _ _ hpt]
      exact hwf.2.1 p hpst
  · -- internal coherence of each surviving team
    intro t4 ht4
    have hmf := List.mem_filter.mp ht4
    have hq4 : t4.id ≠ lt.id := by
      have := hmf.2
      rwa [bne_iff_ne] at this
    rw [hteams] at hmf
    unfold updateTeam at hmf
    rcases List.mem_map.mp hmf.1 with ⟨t, ht, rfl⟩
    by_cases hid1 : t.id = wt.id
    · have hteq : t = wt := mem_teams_id_unique st.teams hwf.1 t wt ht hw hid1
      rw [if_pos hid1, hteq]
      refine ⟨?_, ?_, ?_, ?_, ?_, ?_⟩
      · show wt.suzerainId ∈ _
        have : (({ st3 with teams := st3.teams.filter (fun t => t.id != lt.id) } : GState)).pids
            = st.pids := hp
        rw [this]
        exact hw1
      · show (st3.parts wt.suzerainId).teamId = _
        rw [hfr wt.suzerainId hwszn, hw2]
      · show (st3.parts wt.suzerainId).suzerain = none
        rw [hfr wt.suzerainId hwszn]
        exact hw3
      · show wt.suzerainId ∉ _
        intro hc
        rcases (mem_foldl_addVassalId _ _ _).mp hc with hin | hin
        · exact hw4 hin
        · exact hwszn hin
      · exact nodup_foldl_addVassalId _ _ hw5
      · intro v hv
        rcases (mem_foldl_addVassalId _ _ _).mp hv with hin | hin
        all_goals by_cases hvm : v ∈ lt.suzerainId :: lt.vassalIds
        · refine ⟨?_, ?_, ?_⟩
          · show v ∈ _
            have hpids : (({ st3 with teams := st3.teams.filter (fun t => t.id != lt.id) } : GState)).pids
                = st.pids := hp
            rw [hpids]
            exact member_mem_pids st hwf lt hl v (hmoved v hvm)
          · show (st3.parts v).teamId = _
            rw [(hmem v hvm).1]
          · show (st3.parts v).suzerain ≠ none
            rw [(hmem v hvm).2]
            exact Option.some_ne_none _
        · refine ⟨?_, ?_, ?_⟩
          · show v ∈ _
            have hpids : (({ st3 with teams := st3.teams.filter (fun t => t.id != lt.id) } : GState)).pids
                = st.pids := hp
            rw [hpids]
            exact (hw6 v hin).1
          · show (st3.parts v).teamId = _
            rw [hfr v hvm, (hw6 v hin).2.1]
          · show (st3.parts v).suzerain ≠ none
            rw [hfr v hvm]
            exact (hw6 v hin).2.2
        · refine ⟨?_, ?_, ?_⟩
          · show v ∈ _
            have hpids : (({ st3 with teams := st3.teams.filter (fun t => t.id != lt.id) } : GState)).pids
                = st.pids := hp
            rw [hpids]
            exact member_mem_pids st hwf lt hl v (hmoved v hvm)
          · show (st3.parts v).teamId = _
            rw [(hmem v hvm).1]
          · show (st3.parts v).suzerain ≠ none
            rw [(hmem v hvm).2]
            exact Option.some_ne_none _
        · exact absurd hin hvm
    · rw [if_neg hid1]
      rw [if_neg hid1] at hq4
      obtain ⟨ht1, ht2, ht3, ht4b, ht5, ht6⟩ := hwf.2.2 t ht
      have htn : ∀ x, claimsB t x = true → x ∉ lt.suzerainId :: lt.vassalIds := by
        intro x hcx hxc
        exact hq4 (by rw [hOnlyLt x hxc t ht hcx])
      refine ⟨?_, ?_, ?_, ht4b, ht5, ?_⟩
      · show t.suzerainId ∈ _
        have hpids : (({ st3 with teams := st3.teams.filter (fun t => t.id != lt.id) } : GState)).pids
            = st.pids := hp
        rw [hpids]
        exact ht1
      · show (st3.parts t.suzerainId).teamId = _
        rw [hfr t.suzerainId (htn t.suzerainId ((claimsB_true_iff t _).mpr (Or.inl rfl)))]
        exact ht2
      · show (st3.parts t.suzerainId).suzerain = none
        rw [hfr t.suzerainId (htn t.suzerainId ((claimsB_true_iff t _).mpr (Or.inl rfl)))]
        exact ht3
      · intro v hv
        have hvn := htn v ((claimsB_true_iff t v).mpr (Or.inr hv))
        refine ⟨?_, ?_, ?_⟩
        · show v ∈ _
          have hpids : (({ st3 with teams := st3.teams.filter (fun t => t.id != lt.id) } : GState)).pids
              = st.pids := hp
          rw [hpids]
          exact (ht6 v hv).1
        · show (st3.parts v).teamId = _
          rw [hfr v hvn]
          exact (ht6 v hv).2.1
        · show (st3.parts v).suzerain ≠ none
          rw [hfr v hvn]
          exact (ht6 v hv).2.2


theorem mem_addVassalId (l : List Nat) (v x : Nat) :
    x ∈ addVassalId l v ↔ x ∈ l ∨ x = v := by
  unfold addVassalId
  by_cases hv : v ∈ l
  · rw [if_pos hv]
    constructor
    · exact Or.inl
    · rintro (h | rfl)
      · exact h
      · exact hv
  · rw [if_neg hv]
    simp

theorem nodup_addVassalId (l : List Nat) (v : Nat) (h : l.Nodup) :
    (addVassalId l v).Nodup := by
  unfold addVassalId
  by_cases hv : v ∈ l
  · rwa [if_pos hv]
  · rw [if_neg hv, List.nodup_append]
    exact ⟨h, List.nodup_singleton v, by simpa using hv⟩

theorem removeVassal_spec (st : GState) (lt : MTeam) (d : Nat)
    (hfl : findTeam st lt.id = some lt) (hd : d ∈ lt.vassalIds) :
    (removeVassal st lt.id d).pids = st.pids ∧
    (removeVassal st lt.id d).teams
      = updateTeam st.teams lt.id (fun u => { u with vassalIds := u.vassalIds.erase d }) ∧
    (∀ j, j ≠ d → (removeVassal st lt.id d).parts j = st.parts j) ∧
    ((removeVassal st lt.id d).parts d).suzerain = none ∧
    ((removeVassal st lt.id d).parts d).teamId = (st.parts d).teamId := by
  unfold removeVassal
  rw [hfl]
  dsimp only
  rw [if_pos hd]
  refine ⟨rfl, rfl, ?_, ?_, ?_⟩
  · intro j hj
    simp only [setPart]
    rw [if_neg hj]
  · simp [setPart]
  · simp [setPart]

/-- Moving one vassal out of its team and into another team (removeVassal
followed by addVassal, the vassal-defeated migration branch) preserves the
single-membership invariant. -/
theorem moveVassal_WF (st : GState) (lt wt : MTeam) (d : Nat) (hwf : WF st)
    (hl : lt ∈ st.teams) (hw : wt ∈ st.teams) (hne : wt.id ≠ lt.id)
    (hd : d ∈ lt.vassalIds) :
    WF (addVassal (removeVassal st lt.id d) wt.id d) ∧
    (addVassal (removeVassal st lt.id d) wt.id d).pids = st.pids := by
  obtain ⟨hl1, hl2, hl3, hl4, hl5, hl6⟩ := hwf.2.2 lt hl
  obtain ⟨hw1, hw2, hw3, hw4, hw5, hw6⟩ := hwf.2.2 wt hw
  have hdp : d ∈ st.pids := (hl6 d hd).1
  have hfl : findTeam st lt.id = some lt := findTeam_of_mem st lt hwf.1 hl
  obtain ⟨rp, rteams, rfr, rsz, rtid⟩ := removeVassal_spec st lt d hfl hd
  have hnd2 : ((removeVassal st lt.id d).teams.map MTeam.id).Nodup := by
    rw [rteams, updateTeam_map_id st.teams lt.id
      (fun u => { u with vassalIds := u.vassalIds.erase d }) (fun u => rfl)]
    exact hwf.1
  have hwmem2 : wt ∈ (removeVassal st lt.id d).teams := by
    rw [rteams]
    unfold updateTeam
    exact List.mem_map.mpr ⟨wt, hw, by rw [if_neg hne]⟩
  have hfw2 : findTeam (removeVassal st lt.id d) wt.id = some wt :=
    findTeam_of_mem _ wt hnd2 hwmem2
  obtain ⟨ap, ateams, afr, atid, asz⟩ := addVassal_spec (removeVassal st lt.id d) wt.id d wt hfw2
  -- uniqueness facts
  have hclaimd : claimsB lt d = true := (claimsB_true_iff lt d).mpr (Or.inr hd)
  have hOnly : ∀ t ∈ st.teams, claimsB t d = true → t = lt := fun t ht hc =>
    claim_unique st hwf d hdp t lt ht hl hc hclaimd
  have hlsd : lt.suzerainId ≠ d := fun hc => hl4 (hc ▸ hd)
  have hwszd : wt.suzerainId ≠ d := by
    intro hc
    have : claimsB wt d = true := (claimsB_true_iff wt d).mpr (Or.inl hc)
    exact hne (congrArg MTeam.id (hOnly wt hw this)) 
  have hwvd : ∀ v ∈ wt.vassalIds, v ≠ d := by
    intro v hv hc
    subst hc
    have : claimsB wt v = true := (claimsB_true_iff wt v).mpr (Or.inr hv)
    exact hne (congrArg MTeam.id (hOnly wt hw this))
  -- the combined team transformation
  have hteams3 : (addVassal (removeVassal st lt.id d) wt.id d).teams
      = (updateTeam st.teams lt.id (fun u => { u with vassalIds := u.vassalIds.erase d })).map
          (fun t => if t.id = wt.id then { t with vassalIds := addVassalId t.vassalIds d } else t) := by
    rw [ateams, rteams]
    rfl
  have hfr3 : ∀ j, j ≠ d →
      (addVassal (removeVassal st lt.id d) wt.id d).parts j = st.parts j := by
    intro j hj
    rw [afr j hj, rfr j hj]
  refine ⟨⟨?_, ?_, ?_⟩, ap.trans rp⟩
  · rw [hteams3]
    have h1 : ((updateTeam st.teams lt.id (fun u => { u with vassalIds := u.vassalIds.erase d })).map
        (fun t => if t.id = wt.id then { t with vassalIds := addVassalId t.vassalIds d } else t)).map MTeam.id
        = (updateTeam st.teams lt.id (fun u => { u with vassalIds := u.vassalIds.erase d })).map MTeam.id := by
      rw [List.map_map]
      apply List.map_congr_left
      intro t _
      by_cases h : t.id = wt.id <;> simp [h]
    rw [h1, updateTeam_map_id st.teams lt.id
      (fun u => { u with vassalIds := u.vassalIds.erase d }) (fun u => rfl)]
    exact hwf.1
  · intro p hp3
    have hpst : p ∈ st.pids := by
      have : p ∈ (addVassal (removeVassal st lt.id d) wt.id d).pids := hp3
      rwa [ap, rp] at this
    show ((addVassal (removeVassal st lt.id d) wt.id d).teams).countP (fun t => claimsB t p) = 1
    rw [hteams3]
    unfold updateTeam
    rw [List.map_map, List.countP_map]
    by_cases hpd : p = d
    · have hpt : ∀ t ∈ st.teams,
          ((fun t => claimsB t p) ∘ ((fun t =>
              if t.id = wt.id then { t with vassalIds := addVassalId t.vassalIds d } else t) ∘
            (fun t => if t.id = lt.id then { t with vassalIds := t.vassalIds.erase d } else t))) t
          = (fun u => u.id == wt.id) t := by
        intro t ht
        simp only [Function.comp]
        by_cases h1 : t.id = lt.id
        · have hteq : t = lt := mem_teams_id_unique st.teams hwf.1 t lt ht hl (by rw [h1])
          have hnw : ¬ t.id = wt.id := by
            rw [h1]
            intro hc
            exact hne hc.symm
          rw [if_pos h1, if_neg hnw]
          have hc1 : claimsB { t with vassalIds := t.vassalIds.erase d } p = false := by
            cases hc : claimsB { t with vassalIds := t.vassalIds.erase d } p with
            | false => rfl
            | true =>
                rcases (claimsB_true_iff _ p).mp hc with he | he
                · refine absurd ?_ hlsd
                  rw [← hteq]
                  exact he.trans hpd
                · have hdd : d ∈ t.vassalIds.erase d := by
                    have he2 : p ∈ t.vassalIds.erase d := he
                    rwa [hpd] at he2
                  have hnodup : t.vassalIds.Nodup := by
                    rw [hteq]
                    exact hl5
                  exact absurd hdd hnodup.not_mem_erase
          rw [hc1]
          have hbf : (t.id == wt.id) = false := by
            simp only [beq_eq_false_iff_ne, ne_eq]
            exact hnw
          rw [hbf]
        · rw [if_neg h1]
          by_cases h2 : t.id = wt.id
          · rw [if_pos h2]
            have hc1 : claimsB { t with vassalIds := addVassalId t.vassalIds d } p = true := by
              rw [claimsB_true_iff]
              exact Or.inr ((mem_addVassalId _ _ _).mpr (Or.inr hpd))
            rw [hc1]
            simp [h2]
          · rw [if_neg h2]
            have hc1 : claimsB t p = false := by
              cases hc : claimsB t p with
              | false => rfl
              | true =>
                  have hcd : claimsB t d = true := by
                    rw [← hpd]
                    exact hc
                  exact absurd (congrArg MTeam.id (hOnly t ht hcd)) h1
            rw [hc1]
            simp [h2]
      rw [countP_congr_eq st.teams _ _ hpt]
      exact countP_id_one st.teams hwf.1 wt hw
    · have hpt : ∀ t ∈ st.teams,
          ((fun t => claimsB t p) ∘ ((fun t =>
              if t.id = wt.id then { t with vassalIds := addVassalId t.vassalIds d } else t) ∘
            (fun t => if t.id = lt.id then { t with vassalIds := t.vassalIds.erase d } else t))) t
          = (fun u => claimsB u p) t := by
        intro t ht
        simp only [Function.comp]
        by_cases h1 : t.id = lt.id
        · rw [if_pos h1, if_neg (fun hc : t.id = wt.id => hne (by rw [← hc, h1]))]
          apply Bool.coe_iff_coe.mp
          rw [claimsB_true_iff, claimsB_true_iff]
          constructor
          · rintro (he | he)
            · exact Or.inl he
            · exact Or.inr (List.mem_of_mem_erase he)
          · rintro (he | he)
            · exact Or.inl he
            · exact Or.inr ((List.mem_erase_of_ne hpd).mpr he)
        · rw [if_neg h1]
          by_cases h2 : t.id = wt.id
          · rw [if_pos h2]
            apply Bool.coe_iff_coe.mp
            rw [claimsB_true_iff, claimsB_true_iff]
            constructor
            · rintro (he | he)
              · exact Or.inl he
              · rcases (mem_addVassalId _ _ _).mp he with h3 | h3
                · exact Or.inr h3
                · exact absurd h3 hpd
            · rintro (he | he)
              · exact Or.inl he
              · exact Or.inr ((mem_addVassalId _ _ _).mpr (Or.inl he))
          · rw [if_neg h2]
      rw [countP_congr_eq st.teams _ _ hpt]
      exact hwf.2.1 p hpst
  · intro t3 ht3
    rw [hteams3] at ht3
    unfold updateTeam at ht3
    rw [List.map_map] at ht3
    rcases List.mem_map.mp ht3 with ⟨t, ht, rfl⟩
    simp only [Function.comp]
    have hppids : (addVassal (removeVassal st lt.id d) wt.id d).pids = st.pids := ap.trans rp
    by_cases h1 : t.id = lt.id
    · have hteq : t = lt := mem_teams_id_unique st.teams hwf.1 t lt ht hl (by rw [h1])
      rw [if_pos h1, if_neg (show ¬ t.id = wt.id from fun hc => hne (by rw [← hc, h1]))]
      refine ⟨?_, ?_, ?_, ?_, ?_, ?_⟩
      · show t.suzerainId ∈ _
        rw [hppids, hteq]
        exact hl1
      · show (_ : MPart).teamId = _
        rw [hteq] at *
        rw [hfr3 lt.suzerainId hlsd, hl2]
      · show (_ : MPart).suzerain = none
        rw [hteq] at *
        rw [hfr3 lt.suzerainId hlsd]
        exact hl3
      · show t.suzerainId ∉ _
        intro hc
        rw [hteq] at hc
        exact hl4 (List.mem_of_mem_erase hc)
      · show (t.vassalIds.erase d).Nodup
        rw [hteq]
        exact hl5.erase d
      · intro v hv
        rw [hteq] at hv
        have hvne : v ≠ d := by
          intro hc
          rw [hc] at hv
          exact hl5.not_mem_erase hv
        have hvmem : v ∈ lt.vassalIds := List.mem_of_mem_erase hv
        refine ⟨?_, ?_, ?_⟩
        · show v ∈ _
          rw [hppids]
          exact (hl6 v hvmem).1
        · show (_ : MPart).teamId = _
          rw [hfr3 v hvne, hteq]
          exact (hl6 v hvmem).2.1
        · show (_ : MPart).suzerain ≠ none
          rw [hfr3 v hvne]
          exact (hl6 v hvmem).2.2
    · rw [if_neg h1]
      by_cases h2 : t.id = wt.id
      · have hteq : t = wt := mem_teams_id_unique st.teams hwf.1 t wt ht hw (by rw [h2])
        rw [if_pos h2, hteq]
        refine ⟨?_, ?_, ?_, ?_, ?_, ?_⟩
        · show wt.suzerainId ∈ _
          rw [hppids]
          exact hw1
        · show (_ : MPart).teamId = _
          rw [hfr3 wt.suzerainId hwszd, hw2]
        · show (_ : MPart).suzerain = none
          rw [hfr3 wt.suzerainId hwszd]
          exact hw3
        · show wt.suzerainId ∉ _
          intro hc
          rcases (mem_addVassalId _ _ _).mp hc with h3 | h3
          · exact hw4 h3
          · exact hwszd h3
        · exact nodup_addVassalId wt.vassalIds d hw5
        · intro v hv
          rcases (mem_addVassalId _ _ _).mp hv with h3 | h3
          · refine ⟨?_, ?_, ?_⟩
            · show v ∈ _
              rw [hppids]
              exact (hw6 v h3).1
            · show (_ : MPart).teamId = _
              rw [hfr3 v (hwvd v h3)]
              exact (hw6 v h3).2.1
            · show (_ : MPart).suzerain ≠ none
              rw [hfr3 v (hwvd v h3)]
              exact (hw6 v h3).2.2
          · subst h3
            refine ⟨?_, ?_, ?_⟩
            · show v ∈ _
              rw [hppids]
              exact hdp
            · show (_ : MPart).teamId = _
              rw [atid]
            · show (_ : MPart).suzerain ≠ none
              rw [asz]
              exact Option.some_ne_none _
      · rw [if_neg h2]
        obtain ⟨ht1, ht2, ht3b, ht4, ht5, ht6⟩ := hwf.2.2 t ht
        have htnd : ∀ x, claimsB t x = true → x ≠ d := by
          intro x hcx hc
          subst hc
          exact h1 (congrArg MTeam.id (hOnly t ht hcx))
        refine ⟨?_, ?_, ?_, ht4, ht5, ?_⟩
        · show t.suzerainId ∈ _
          rw [hppids]
          exact ht1
        · show (_ : MPart).teamId = _
          rw [hfr3 t.suzerainId (htnd t.suzerainId ((claimsB_true_iff t _).mpr (Or.inl rfl)))]
          exact ht2
        · show (_ : MPart).suzerain = none
          rw [hfr3 t.suzerainId (htnd t.suzerainId ((claimsB_true_iff t _).mpr (Or.inl rfl)))]
          exact ht3b
        · intro v hv
          have hvne := htnd v ((claimsB_true_iff t v).mpr (Or.inr hv))
          refine ⟨?_, ?_, ?_⟩
          · show v ∈ _
            rw [hppids]
            exact (ht6 v hv).1
          · show (_ : MPart).teamId = _
            rw [hfr3 v hvne]
            exact (ht6 v hv).2.1
          · show (_ : MPart).suzerain ≠ none
            rw [hfr3 v hvne]
            exact (ht6 v hv).2.2


/-- Tail of the suzerain-defeated migration branch (team merge, loser-team
deletion, flag clearing, peace stamp) preserves WF and the pid set. -/
theorem suzBranchTail_WF (stx : GState) (lt wt : MTeam) (tick peaceDur : ℚ)
    (hwf : WF stx) (hl : lt ∈ stx.teams) (hw : wt ∈ stx.teams) (hne : wt.id ≠ lt.id) :
    WF { ((lt.suzerainId :: lt.vassalIds).foldl
          (fun s m => setPart s m (fun p => { p with isDefeated := false }))
          { addSuzerainAndVassals stx wt.id lt.suzerainId lt.vassalIds with
            teams := (addSuzerainAndVassals stx wt.id lt.suzerainId lt.vassalIds).teams.filter
              (fun t => t.id != lt.id) }) with
        teams := updateTeam ((lt.suzerainId :: lt.vassalIds).foldl
          (fun s m => setPart s m (fun p => { p with isDefeated := false }))
          { addSuzerainAndVassals stx wt.id lt.suzerainId lt.vassalIds with
            teams := (addSuzerainAndVassals stx wt.id lt.suzerainId lt.vassalIds).teams.filter
              (fun t => t.id != lt.id) }).teams wt.id
          (fun t => { t with peaceUntilTick := tick + peaceDur }) } ∧
    ({ ((lt.suzerainId :: lt.vassalIds).foldl
          (fun s m => setPart s m (fun p => { p with isDefeated := false }))
          { addSuzerainAndVassals stx wt.id lt.suzerainId lt.vassalIds with
            teams := (addSuzerainAndVassals stx wt.id lt.suzerainId lt.vassalIds).teams.filter
              (fun t => t.id != lt.id) }) with
        teams := updateTeam ((lt.suzerainId :: lt.vassalIds).foldl
          (fun s m => setPart s m (fun p => { p with isDefeated := false }))
          { addSuzerainAndVassals stx wt.id lt.suzerainId lt.vassalIds with
            teams := (addSuzerainAndVassals stx wt.id lt.suzerainId lt.vassalIds).teams.filter
              (fun t => t.id != lt.id) }).teams wt.id
          (fun t => { t with peaceUntilTick := tick + peaceDur }) } : GState).pids = stx.pids := by
  obtain ⟨hWF4, hp3, _, _⟩ := merge_WF stx lt wt
    (addSuzerainAndVassals stx wt.id lt.suzerainId lt.vassalIds) hwf hl hw hne rfl
  have hm5 := membEq_foldl (lt.suzerainId :: lt.vassalIds)
    (fun s m => setPart s m (fun p => { p with isDefeated := false }))
    { addSuzerainAndVassals stx wt.id lt.suzerainId lt.vassalIds with
      teams := (addSuzerainAndVassals stx wt.id lt.suzerainId lt.vassalIds).teams.filter
        (fun t => t.id != lt.id) }
    (fun s m => membEq_setPart s m _ (fun p => ⟨rfl, rfl⟩))
  have hwf5 := WF_of_membEq hm5 hWF4
  refine ⟨WF_updateTeam_peace _ wt.id (tick + peaceDur) hwf5, ?_⟩
  show (_ : GState).pids = stx.pids
  rw [hm5.1]
  exact hp3

/-- Tail of the vassal-defeated migration branch (removeVassal, addVassal,
flag clearing, peace stamp) preserves WF and the pid set. -/
theorem vassalBranchTail_WF (stx : GState) (lt wt : MTeam) (d : Nat) (tick peaceDur : ℚ)
    (hwf : WF stx) (hl : lt ∈ stx.teams) (hw : wt ∈ stx.teams) (hne : wt.id ≠ lt.id)
    (hd : d ∈ lt.vassalIds) :
    WF { (setPart (addVassal (removeVassal stx lt.id d) wt.id d) d
          (fun p => { p with isDefeated := false })) with
        teams := updateTeam (setPart (addVassal (removeVassal stx lt.id d) wt.id d) d
          (fun p => { p with isDefeated := false })).teams wt.id
          (fun t => { t with peaceUntilTick := tick + peaceDur }) } ∧
    ({ (setPart (addVassal (removeVassal stx lt.id d) wt.id d) d
          (fun p => { p with isDefeated := false })) with
        teams := updateTeam (setPart (addVassal (removeVassal stx lt.id d) wt.id d) d
          (fun p => { p with isDefeated := false })).teams wt.id
          (fun t => { t with peaceUntilTick := tick + peaceDur }) } : GState).pids = stx.pids := by
  obtain ⟨hWF3, hp3⟩ := moveVassal_WF stx lt wt d hwf hl hw hne hd
  have hm4 := membEq_setPart (addVassal (removeVassal stx lt.id d) wt.id d) d
    (fun p => { p with isDefeated := false }) (fun p => ⟨rfl, rfl⟩)
  have hwf4 := WF_of_membEq hm4 hWF3
  refine ⟨WF_updateTeam_peace _ wt.id (tick + peaceDur) hwf4, ?_⟩
  show (_ : GState).pids = stx.pids
  rw [hm4.1]
  exact hp3

/-- The migration body for one defeated participant preserves the
single-membership invariant and the participant id set. -/
theorem processOneDefeated_WF (st : GState) (dId : Nat) (tick peaceDur : ℚ)
    (hwf : WF st) (hdp : dId ∈ st.pids) :
    WF (processOneDefeated st dId tick peaceDur) ∧
    (processOneDefeated st dId tick peaceDur).pids = st.pids := by
  unfold processOneDefeated
  cases hlt : findTeam st (st.parts dId).teamId with
  | none => exact ⟨hwf, rfl⟩
  | some lt =>
      dsimp only
      cases hwin : findWinnerFor st dId with
      | none =>
          refine ⟨?_, rfl⟩
          exact WF_of_membEq (membEq_setPart st dId _ (fun p => ⟨rfl, rfl⟩)) hwf
      | some w =>
          dsimp only
          cases hwt : findTeam st (st.parts w).teamId with
          | none => exact ⟨hwf, rfl⟩
          | some wt =>
              dsimp only
              have hltm := findTeam_mem st _ lt hlt
              have hwtm := findTeam_mem st _ wt hwt
              have hgood := (findWinnerFor_fold st dId st.pids ((0 : ℚ), (none : Option Nat))
                (fun p hp => hp)
                ⟨fun _ => rfl, fun x hx => absurd hx (by simp)⟩).1
              have houtside : (st.parts w).teamId ≠ (st.parts dId).teamId :=
                (hgood.2 w hwin).2.1
              have hne : wt.id ≠ lt.id := by
                rw [hwtm.2, hltm.2]
                exact houtside
              by_cases hsz : (st.parts dId).suzerain = none
              · rw [if_pos hsz]
                have hm1 := membEq_foldl (lt.suzerainId :: lt.vassalIds)
                  (fun s m => shareSpoils s wt.id m
                    (if (s.parts m).suzerain = none then (1/5 : ℚ) else (1/10 : ℚ)))
                  st
                  (fun s m => membEq_shareSpoils s wt.id m _)
                have hwf1 := WF_of_membEq hm1 hwf
                have hlt1 : lt ∈ ((lt.suzerainId :: lt.vassalIds).foldl
                    (fun s m => shareSpoils s wt.id m
                      (if (s.parts m).suzerain = none then (1/5 : ℚ) else (1/10 : ℚ))) st).teams := by
                  rw [hm1.2.1]
                  exact hltm.1
                have hwt1 : wt ∈ ((lt.suzerainId :: lt.vassalIds).foldl
                    (fun s m => shareSpoils s wt.id m
                      (if (s.parts m).suzerain = none then (1/5 : ℚ) else (1/10 : ℚ))) st).teams := by
                  rw [hm1.2.1]
                  exact hwtm.1
                have h := suzBranchTail_WF _ lt wt tick peaceDur hwf1 hlt1 hwt1 hne
                exact ⟨h.1, h.2.trans hm1.1⟩
              · rw [if_neg hsz]
                have hm1 := membEq_shareSpoils st wt.id dId (1/10 : ℚ)
                have hwf1 := WF_of_membEq hm1 hwf
                have hlt1 : lt ∈ (shareSpoils st wt.id dId (1/10 : ℚ)).teams := by
                  rw [hm1.2.1]
                  exact hltm.1
                have hwt1 : wt ∈ (shareSpoils st wt.id dId (1/10 : ℚ)).teams := by
                  rw [hm1.2.1]
                  exact hwtm.1
                have hclaims := findTeam_claims st hwf dId hdp lt hlt
                have hd : dId ∈ lt.vassalIds :=
                  (claim_role st hwf lt hclaims.2 dId hclaims.1).2 hsz
                have h := vassalBranchTail_WF _ lt wt dId tick peaceDur hwf1 hlt1 hwt1 hne hd
                exact ⟨h.1, h.2.trans hm1.1⟩


/-- The full migration pass (snapshot of defeated ids, then the body per
participant) preserves the single-membership invariant. -/
theorem processTeamMigrations_WF (st : GState) (tick peaceDur : ℚ) (hwf : WF st) :
    WF (processTeamMigrations st tick peaceDur) := by
  unfold processTeamMigrations
  have H : ∀ (l : List Nat) (s : GState), WF s → s.pids = st.pids →
      (∀ d ∈ l, d ∈ st.pids) →
      WF (l.foldl (fun s d => processOneDefeated s d tick peaceDur) s) := by
    intro l
    induction l with
    | nil => intro s hs _ _; exact hs
    | cons d l ih =>
        intro s hs hp hl
        rw [List.foldl_cons]
        have hdp : d ∈ s.pids := by
          rw [hp]
          exact hl d (List.mem_cons_self d l)
        obtain ⟨hwf2, hp2⟩ := processOneDefeated_WF s d tick peaceDur hs hdp
        exact ih _ hwf2 (hp2.trans hp) (fun x hx => hl x (List.mem_cons_of_mem d hx))
  exact H _ st hwf rfl (fun d hd => (List.mem_filter.mp hd).1)

theorem mergeFold_WF (st : GState) (leaderId : Nat) :
    ∀ (L : List MTeam) (s : GState), WF s → s.pids = st.pids →
    (∀ tm ∈ L, tm ∈ s.teams ∧ tm.id ≠ leaderId) →
    ((L.map MTeam.id).Nodup) →
    (∃ lw ∈ s.teams, lw.id = leaderId) →
    WF (L.foldl (fun s tm =>
      { addSuzerainAndVassals s leaderId tm.suzerainId tm.vassalIds with
        teams := (addSuzerainAndVassals s leaderId tm.suzerainId tm.vassalIds).teams.filter
          (fun t => t.id != tm.id) }) s) := by
  intro L
  induction L with
  | nil => intro s hs _ _ _ _; exact hs
  | cons tm L2 ih =>
      intro s hs hp hmem hnd hlead
      rcases hlead with ⟨lw, hlw, hlwid⟩
      rw [List.foldl_cons]
      have htm := hmem tm (List.mem_cons_self tm L2)
      have hne2 : lw.id ≠ tm.id := by
        rw [hlwid]
        exact fun hc => htm.2 hc.symm
      obtain ⟨hWF4, hp3, _, hteams⟩ := merge_WF s tm lw
        (addSuzerainAndVassals s leaderId tm.suzerainId tm.vassalIds)
        hs htm.1 hlw hne2 (by rw [hlwid])
      rw [List.map_cons, List.nodup_cons] at hnd
      apply ih _ hWF4 (hp3.trans hp)
      · intro tm2 htm2
        have htm2s := hmem tm2 (List.mem_cons_of_mem tm htm2)
        refine ⟨?_, htm2s.2⟩
        show tm2 ∈ ((addSuzerainAndVassals s leaderId tm.suzerainId tm.vassalIds).teams.filter
          (fun t => t.id != tm.id))
        rw [hteams]
        apply List.mem_filter.mpr
        constructor
        · unfold updateTeam
          refine List.mem_map.mpr ⟨tm2, htm2s.1, ?_⟩
          rw [if_neg]
          rw [hlwid]
          exact htm2s.2
        · rw [bne_iff_ne]
          intro hc
          exact hnd.1 (hc ▸ List.mem_map_of_mem MTeam.id htm2)
      · exact hnd.2
      · refine ⟨{ lw with vassalIds := (tm.suzerainId :: tm.vassalIds).foldl addVassalId lw.vassalIds }, ?_, hlwid⟩
        show _ ∈ ((addSuzerainAndVassals s leaderId tm.suzerainId tm.vassalIds).teams.filter
          (fun t => t.id != tm.id))
        rw [hteams]
        apply List.mem_filter.mpr
        constructor
        · unfold updateTeam
          refine List.mem_map.mpr ⟨lw, hlw, ?_⟩
          rw [if_pos rfl]
        · rw [bne_iff_ne]
          exact hne2

theorem foldl_maxTeam_mem (st : GState) (rest : List MTeam) (h : MTeam) :
    rest.foldl (fun prev current =>
      if (st.parts prev.suzerainId).powerPoints > (st.parts current.suzerainId).powerPoints
      then prev else current) h = h ∨
    rest.foldl (fun prev current =>
      if (st.parts prev.suzerainId).powerPoints > (st.parts current.suzerainId).powerPoints
      then prev else current) h ∈ rest := by
  induction rest generalizing h with
  | nil => left; rfl
  | cons c rest2 ih =>
      rw [List.foldl_cons]
      rcases ih (if (st.parts h.suzerainId).powerPoints > (st.parts c.suzerainId).powerPoints
          then h else c) with h2 | h2
      · rw [h2]
        by_cases hpc : (st.parts h.suzerainId).powerPoints > (st.parts c.suzerainId).powerPoints
        · left; rw [if_pos hpc]
        · right; rw [if_neg hpc]; exact List.mem_cons_self c rest2
      · right; exact List.mem_cons_of_mem c h2

/-- The coalition pass (merging every non-dominant team except the
strongest into that strongest team) preserves the single-membership
invariant. -/
theorem manageCoalitions_WF (st : GState) (enable : Bool) (hwf : WF st) :
    WF (manageCoalitions st enable) := by
  unfold manageCoalitions
  cases enable with
  | false => exact hwf
  | true =>
      dsimp only
      cases hdom : st.teams.find? (fun t =>
          decide ((1 + (t.vassalIds.length : ℚ)) > (st.pids.length : ℚ) / 2)) with
      | none => exact hwf
      | some dominantTeam =>
          dsimp only
          by_cases hlen : (st.teams.filter (fun t => t.id != dominantTeam.id)).length ≤ 1
          · rw [if_pos hlen]
            exact hwf
          · rw [if_neg hlen]
            cases ho : st.teams.filter (fun t => t.id != dominantTeam.id) with
            | nil => exact hwf
            | cons h rest =>
                dsimp only
                have hsubT : ∀ t ∈ h :: rest, t ∈ st.teams := by
                  intro t ht
                  rw [← ho] at ht
                  exact (List.mem_filter.mp ht).1
                have hndL : ((h :: rest).map MTeam.id).Nodup := by
                  rw [← ho]
                  exact hwf.1.sublist ((List.filter_sublist st.teams).map MTeam.id)
                have hleadmem : (rest.foldl (fun prev current =>
                    if (st.parts prev.suzerainId).powerPoints >
                        (st.parts current.suzerainId).powerPoints
                    then prev else current) h) ∈ h :: rest := by
                  rcases foldl_maxTeam_mem st rest h with h2 | h2
                  · rw [h2]; exact List.mem_cons_self h rest
                  · exact List.mem_cons_of_mem h h2
                apply mergeFold_WF st _ _ st hwf rfl
                · intro tm htm
                  have := List.mem_filter.mp htm
                  refine ⟨hsubT tm this.1, ?_⟩
                  have := this.2
                  rwa [bne_iff_ne] at this
                · exact hndL.sublist ((List.filter_sublist (h :: rest)).map MTeam.id)
                · exact ⟨_, hsubT _ hleadmem, rfl⟩


/-- C1.  Single hierarchy membership: if every participant is claimed by
exactly one team (as suzerain or as one of its vassals, never both roles,
never two teams), then after a full migration pass and after a coalition
pass this is still so: every operation that moves a participant into a team
inside those passes (addVassal, addSuzerainAndVassals, removeVassal plus
loser-team deletion) removes it from its previous team within the same
pass step. -/
theorem single_membership_invariant (st : GState) (tick peaceDur : ℚ) (enable : Bool)
    (hwf : WF st) :
    WF (processTeamMigrations st tick peaceDur) ∧ WF (manageCoalitions st enable) :=
  ⟨processTeamMigrations_WF st tick peaceDur hwf, manageCoalitions_WF st enable hwf⟩

/-- Witness for C1: a concrete two-team state (participant 0 defeated)
satisfies the invariant, and the theorem applies to it. -/
theorem single_membership_invariant_witness :
    WF (processTeamMigrations
      { pids := [0, 1],
        parts := fun i => if i = 0 then { mkMPart 0 with isDefeated := true } else mkMPart 1,
        teams := [{ id := 0, suzerainId := 0, vassalIds := [], peaceUntilTick := 0 },
                  { id := 1, suzerainId := 1, vassalIds := [], peaceUntilTick := 0 }] } 5 7) ∧
    WF (manageCoalitions
      { pids := [0, 1],
        parts := fun i => if i = 0 then { mkMPart 0 with isDefeated := true } else mkMPart 1,
        teams := [{ id := 0, suzerainId := 0, vassalIds := [], peaceUntilTick := 0 },
                  { id := 1, suzerainId := 1, vassalIds := [], peaceUntilTick := 0 }] } true) := by
  exact single_membership_invariant
    { pids := [0, 1],
      parts := fun i => if i = 0 then { mkMPart 0 with isDefeated := true } else mkMPart 1,
      teams := [{ id := 0, suzerainId := 0, vassalIds := [], peaceUntilTick := 0 },
                { id := 1, suzerainId := 1, vassalIds := [], peaceUntilTick := 0 }] }
    5 7 true
    (by
      unfold WF claimCount teamOK
      refine ⟨by decide, by decide, by decide⟩)

end AutoFFA.Migration
